import Mathlib

/-!
Verification development for the data-profile analyzer
(`evidently/analyzers/data_profile_analyzer.py`).

Modelling conventions used throughout this file:

* A column (a pandas `Series`) is a `List Val`.  The sentinel for a
  missing value (`NaN` / `NaT` / `None`) is the explicit constructor
  `Val.vmissing`; `Series.isnull` therefore becomes equality with
  `Val.vmissing`.
* Python / numpy floats are modelled by exact rationals `ℚ`; the IEEE
  infinities (which pandas treats as regular non-null values) are the
  separate constructors `Val.vpinf` / `Val.vninf`.  Aggregate arithmetic
  (mean, standard deviation, quantiles) is modelled over the finite
  values; columns mixing infinities into those aggregates are floating
  point behaviour outside the scope of this model.
* `np.round(x, 2)` is round-half-to-even on `100 * x`, modelled exactly
  by `round2`.
* `Series.value_counts(dropna=False)` lists each distinct value of the
  column (the missing marker included) with its number of occurrences,
  ordered by descending count; values with equal counts keep their order
  of first appearance in the column.  This is modelled by `freqTable`.
* Python `set(series.unique())` is `List.toFinset`; a set difference of
  the value sets of the two dataset snapshots never identifies the
  missing marker of one snapshot with the missing marker of the other
  (float `NaN` compares unequal to `NaN`), modelled by `pySetDiff`.
* A raised `KeyError` is `Except.error` carrying the offending key.
-/

/-- A scalar cell value of a dataset column.  `vmissing` is the missing
marker (`NaN`); `vnum` a finite numeric value; `vpinf`/`vninf` the IEEE
infinities; `vstr` a string (also used for rendered datetimes). -/
inductive Val where
  | vmissing : Val
  | vnum (q : ℚ) : Val
  | vpinf : Val
  | vninf : Val
  | vstr (s : String) : Val
  deriving DecidableEq, Repr

/-- The finite numeric content of a value, if any. -/
def toQ : Val → Option ℚ
  | Val.vnum q => some q
  | _ => none

/-- Whether a value is one of the IEEE infinities (`np.isinf`). -/
def isInfV : Val → Bool
  | Val.vpinf => true
  | Val.vninf => true
  | _ => false

/-- A fixed canonical text form of a value, modelling Python `str()`. -/
def canonicalText : Val → String
  | Val.vmissing => "NaT"
  | Val.vnum q => toString q
  | Val.vpinf => "inf"
  | Val.vninf => "-inf"
  | Val.vstr s => s

/-- Rendering of a value as its canonical text form (the `str(...)` cast
applied to datetime statistics). -/
def renderVal (v : Val) : Val := Val.vstr (canonicalText v)

/-- Rank used to give `Val` a total comparison across constructors. -/
def valRank : Val → ℕ
  | Val.vninf => 0
  | Val.vnum _ => 1
  | Val.vpinf => 2
  | Val.vstr _ => 3
  | Val.vmissing => 4

/-- Total boolean comparison of two values, agreeing with the numeric
order on finite numbers and with `-inf < finite < +inf`. -/
def valLeB : Val → Val → Bool
  | Val.vnum a, Val.vnum b => decide (a ≤ b)
  | Val.vstr a, Val.vstr b => decide (a ≤ b)
  | a, b => decide (valRank a ≤ valRank b)

/-- Binary minimum on values. -/
def vminV (a b : Val) : Val := if valLeB a b then a else b

/-- Binary maximum on values. -/
def vmaxV (a b : Val) : Val := if valLeB a b then b else a

/-- Extremum of a list of values (`Series.min()` / `Series.max()` after
the missing values have been removed); `none` on the empty list. -/
def listExtreme (f : Val → Val → Val) : List Val → Option Val
  | [] => none
  | x :: xs => some (List.foldl f x xs)

/-- Round-half-to-even of a rational to an integer, the rounding mode of
`np.round`. -/
def roundHalfEven (x : ℚ) : ℤ :=
  let f := ⌊x⌋
  let r := x - (f : ℚ)
  if r < 1/2 then f
  else if 1/2 < r then f + 1
  else if f % 2 = 0 then f else f + 1

/-- Model of `np.round(x, 2)`: round-half-to-even at two decimal places. -/
def round2 (x : ℚ) : ℚ := ((roundHalfEven (100 * x) : ℤ) : ℚ) / 100

/-- Integer part of the square root of a nonnegative rational. -/
def isqrtQ (x : ℚ) : ℕ := Nat.sqrt (Int.toNat ⌊x⌋)

/-- Round-half-to-even of the square root of a nonnegative rational,
computed exactly through integer square roots. -/
def rheSqrt (x : ℚ) : ℕ :=
  if x < ((isqrtQ x : ℚ) + 1/2) ^ 2 then isqrtQ x
  else if ((isqrtQ x : ℚ) + 1/2) ^ 2 < x then isqrtQ x + 1
  else if isqrtQ x % 2 = 0 then isqrtQ x else isqrtQ x + 1

/-- Model of `np.round(np.sqrt x, 2)` for a nonnegative rational `x`:
the square root rounded half-to-even at two decimal places. -/
def round2sqrt (x : ℚ) : ℚ := ((rheSqrt (10000 * x) : ℕ) : ℚ) / 100

open Classical in
/-- Round-half-to-even of a real number, the reference meaning of
`np.round(·, 0)` used to state what `round2sqrt` computes. -/
noncomputable def rheR (x : ℝ) : ℤ :=
  if x - (⌊x⌋ : ℝ) < 1/2 then ⌊x⌋
  else if (1:ℝ)/2 < x - (⌊x⌋ : ℝ) then ⌊x⌋ + 1
  else if ⌊x⌋ % 2 = 0 then ⌊x⌋ else ⌊x⌋ + 1

/-- Helper of `dedupFirst`: keep the values not seen yet, threading the
set of values already seen. -/
def dedupFirstAux (seen : List Val) : List Val → List Val
  | [] => []
  | x :: xs =>
    if x ∈ seen then dedupFirstAux seen xs
    else x :: dedupFirstAux (x :: seen) xs

/-- Distinct values of a list in order of first appearance (the order in
which `Series.value_counts` first meets each value). -/
def dedupFirst (l : List Val) : List Val := dedupFirstAux [] l

/-- Insertion into a count-descending list, keeping an entry with the
same count after the entries already present (stability). -/
def insertDesc (x : Val × ℕ) : List (Val × ℕ) → List (Val × ℕ)
  | [] => [x]
  | y :: ys => if y.2 ≤ x.2 then x :: y :: ys else y :: insertDesc x ys

/-- Stable sort of count entries by descending count. -/
def sortDesc : List (Val × ℕ) → List (Val × ℕ)
  | [] => []
  | x :: xs => insertDesc x (sortDesc xs)

/-- Model of `Series.value_counts(dropna=False)`: every distinct value of
the column (the missing marker included) with its number of occurrences,
by descending count, ties in order of first appearance. -/
def freqTable (xs : List Val) : List (Val × ℕ) :=
  sortDesc ((dedupFirst xs).map (fun v => (v, xs.count v)))

/-- Insertion into an ascending list of rationals. -/
def insertAsc (x : ℚ) : List ℚ → List ℚ
  | [] => [x]
  | y :: ys => if x ≤ y then x :: y :: ys else y :: insertAsc x ys

/-- Ascending sort of a list of rationals. -/
def sortQ : List ℚ → List ℚ
  | [] => []
  | x :: xs => insertAsc x (sortQ xs)

/-- Linear-interpolation quantile of an ascending list of values, the
scheme used by `Series.describe` for the 25%/50%/75% rows. -/
def quantileQ (sorted : List ℚ) (p : ℚ) : ℚ :=
  match sorted with
  | [] => 0
  | x :: _ =>
    let n := sorted.length
    let pos : ℚ := p * ((n : ℚ) - 1)
    let i : ℕ := Int.toNat ⌊pos⌋
    let frac : ℚ := pos - (i : ℚ)
    let xi := sorted.getD i x
    let xi1 := sorted.getD (i + 1) xi
    xi + frac * (xi1 - xi)

/-- Sample variance (`ddof = 1`, as in `Series.describe`'s `std` row
before the square root) of a list of rationals. -/
def sampleVar (qs : List ℚ) : ℚ :=
  let n : ℚ := qs.length
  let m := qs.sum / n
  (qs.map (fun x => (x - m) ^ 2)).sum / (n - 1)

/-- Mirror of the dataclass `FeaturesProfileStats`: one statistics record
per column.  Optional fields are `none` when the source leaves them as
`None`. -/
structure FeaturesProfileStats where
  feature_type : String
  count : ℕ := 0
  infinite_count : Option ℕ := none
  infinite_fraction : Option ℚ := none
  missing_count : Option ℕ := none
  missing_fraction : Option ℚ := none
  unique : Option ℕ := none
  unique_fraction : Option ℚ := none
  percentile_25 : Option ℚ := none
  percentile_50 : Option ℚ := none
  percentile_75 : Option ℚ := none
  max : Option Val := none
  min : Option Val := none
  mean : Option ℚ := none
  most_common_value : Option Val := none
  most_common_value_fraction : Option ℚ := none
  std : Option ℚ := none
  most_common_not_null_value : Option Val := none
  most_common_not_null_value_fraction : Option ℚ := none
  new_in_current_values_count : Option ℤ := none
  unused_in_current_values_count : Option ℤ := none
  deriving DecidableEq, Repr

/-- Mirror of `DataProfileAnalyzer._get_features_stats`: the statistics
record of one column given its declared feature type.  The two branches
the source can only reach by raising `IndexError` (an empty frequency
table of a nonempty column; a missing second entry while the most common
value is the missing marker and a non-missing value exists) are
unreachable and return the record built so far. -/
def get_features_stats (feature : List Val) (feature_type : String) : FeaturesProfileStats :=
  let base : FeaturesProfileStats := { feature_type := feature_type }
  let all_values_count := feature.length
  if all_values_count = 0 then base
  else
    let missing_count := feature.count Val.vmissing
    let nonMissing := feature.filter (fun v => v ≠ Val.vmissing)
    let cnt := nonMissing.length
    let value_counts := freqTable feature
    let r1 : FeaturesProfileStats := { base with
      missing_count := some missing_count
      count := cnt
      infinite_count :=
        if feature_type = "num" then some (feature.filter isInfV).length else none
      infinite_fraction :=
        if feature_type = "num" then
          some (round2 (((feature.filter isInfV).length : ℚ) / (all_values_count : ℚ)))
        else none
      missing_fraction := some (round2 ((missing_count : ℚ) / (all_values_count : ℚ))) }
    if 0 < cnt then
      match value_counts with
      | [] => r1
      | e0 :: rest =>
        let mcv := if feature_type = "datetime" then renderVal e0.1 else e0.1
        let uniq := (dedupFirst nonMissing).length
        let r2 : FeaturesProfileStats := { r1 with
          most_common_value := some mcv
          most_common_value_fraction := some (round2 ((e0.2 : ℚ) / (all_values_count : ℚ)))
          unique := some uniq
          unique_fraction := some (round2 ((uniq : ℚ) / (all_values_count : ℚ))) }
        let r3 : FeaturesProfileStats :=
          if mcv = Val.vmissing then
            match rest with
            | e1 :: _ => { r2 with
                most_common_not_null_value := some e1.1
                most_common_not_null_value_fraction :=
                  some (round2 ((e1.2 : ℚ) / (all_values_count : ℚ))) }
            | [] => r2
          else r2
        let r4 : FeaturesProfileStats :=
          if feature_type = "num" then
            let qs := feature.filterMap toQ
            { r3 with
              max := listExtreme vmaxV nonMissing
              min := listExtreme vminV nonMissing
              std := if cnt < 2 then none else some (round2sqrt (sampleVar qs))
              mean := some (round2 (qs.sum / (cnt : ℚ)))
              percentile_25 := some (round2 (quantileQ (sortQ qs) (1/4)))
              percentile_50 := some (round2 (quantileQ (sortQ qs) (1/2)))
              percentile_75 := some (round2 (quantileQ (sortQ qs) (3/4))) }
          else r3
        if feature_type = "datetime" then
          { r4 with
            max := (listExtreme vmaxV nonMissing).map renderVal
            min := (listExtreme vminV nonMissing).map renderVal }
        else r4
    else r1

/-- First-match lookup in an association list, the access of a Python
`dict` (whose keys are unique). -/
def lookupA {β : Type} : List (String × β) → String → Option β
  | [], _ => none
  | (k1, v) :: rest, k => if k = k1 then some v else lookupA rest k

/-- Replace the value at a key of an association list, appending the pair
at the end when the key is absent — a Python `dict` assignment. -/
def setKey {β : Type} : List (String × β) → String → β → List (String × β)
  | [], k, v => [(k, v)]
  | (k1, v1) :: rest, k, v =>
    if k1 = k then (k1, v) :: rest else (k1, v1) :: setKey rest k v

/-- Model of Python `dict.update`: write every pair of `adds` into
`base`, overwriting existing keys. -/
def updateAssoc {β : Type} (base adds : List (String × β)) : List (String × β) :=
  adds.foldl (fun b kv => setKey b kv.1 kv.2) base

/-- One bucket of statistics records: a name-to-record dictionary. -/
abbrev FeatMap : Type := List (String × FeaturesProfileStats)

/-- Mirror of the dataclass `DataProfileStats`: the four buckets of
records, each `none` when the source leaves the field as `None`. -/
structure DataProfileStats where
  num_features_stats : Option FeatMap := none
  cat_features_stats : Option FeatMap := none
  datetime_features_stats : Option FeatMap := none
  target_stats : Option FeatMap := none
  deriving DecidableEq

/-- Lookup of a feature name in one optional bucket (`features is not
None and item in features`). -/
def bucketFind (b : Option FeatMap) (item : String) : Option FeaturesProfileStats :=
  match b with
  | some fs => lookupA fs item
  | none => none

/-- One iteration of the `get_all_features` loop: update the accumulated
dictionary with a bucket when the bucket is present. -/
def updateBucket (acc : FeatMap) (b : Option FeatMap) : FeatMap :=
  match b with
  | some fs => updateAssoc acc fs
  | none => acc

/-- Mirror of `DataProfileStats.get_all_features`: the union of the four
buckets as one dictionary, built by `dict.update` in the order target,
datetime, categorical, numeric. -/
def get_all_features (s : DataProfileStats) : FeatMap :=
  updateBucket (updateBucket (updateBucket (updateBucket [] s.target_stats)
    s.datetime_features_stats) s.cat_features_stats) s.num_features_stats

/-- Mirror of `DataProfileStats.__getitem__`: try the buckets in the
fixed order target, datetime, categorical, numeric and raise
`KeyError(item)` when no bucket contains the name. -/
def getItem (s : DataProfileStats) (item : String) : Except String FeaturesProfileStats :=
  match bucketFind s.target_stats item with
  | some r => Except.ok r
  | none =>
    match bucketFind s.datetime_features_stats item with
    | some r => Except.ok r
    | none =>
      match bucketFind s.cat_features_stats item with
      | some r => Except.ok r
      | none =>
        match bucketFind s.num_features_stats item with
        | some r => Except.ok r
        | none => Except.error item

/-- A dataset snapshot: columns by name (a pandas `DataFrame`). -/
abbrev DataFrame : Type := List (String × List Val)

/-- Column lookup without failure (`name in df` / guarded access). -/
def dfLookup : DataFrame → String → Option (List Val)
  | [], _ => none
  | (k1, v) :: rest, k => if k = k1 then some v else dfLookup rest k

/-- Column access `df[name]`, raising `KeyError(name)` when absent. -/
def dfGet (df : DataFrame) (k : String) : Except String (List Val) :=
  match dfLookup df k with
  | some col => Except.ok col
  | none => Except.error k

/-- Mirror of the read-only part of `DatasetColumns` the analyzer uses:
the declared role lists and the optional target/date utility columns. -/
structure DatasetColumns where
  num_feature_names : List String
  cat_feature_names : List String
  datetime_feature_names : List String
  target : Option String := none
  date : Option String := none

/-- Left-to-right effectful map: the evaluation order of a Python dict
comprehension or loop, where the first raised error propagates. -/
def mapME {α β : Type} (f : α → Except String β) : List α → Except String (List β)
  | [] => Except.ok []
  | x :: xs =>
    match f x with
    | Except.error e => Except.error e
    | Except.ok y =>
      match mapME f xs with
      | Except.error e => Except.error e
      | Except.ok ys => Except.ok (y :: ys)

/-- One bucket of `_calculate_stats`: the dict comprehension
`{name: _get_features_stats(dataset[name], ft) for name in names}`. -/
def stats_for (dataset : DataFrame) (ft : String) (names : List String) :
    Except String FeatMap :=
  mapME (fun n =>
    match dfGet dataset n with
    | Except.error e => Except.error e
    | Except.ok col => Except.ok (n, get_features_stats col ft)) names

/-- Mirror of `DataProfileAnalyzer._calculate_stats`: build the four
buckets of one snapshot; the date utility column joins the datetime
bucket; the target is profiled as categorical for a classification task,
as numeric otherwise, and only when present in the dataset. -/
def calculate_stats (dataset : DataFrame) (columns : DatasetColumns)
    (task : Option String) : Except String DataProfileStats :=
  match stats_for dataset "num" columns.num_feature_names with
  | Except.error e => Except.error e
  | Except.ok numS =>
    match stats_for dataset "cat" columns.cat_feature_names with
    | Except.error e => Except.error e
    | Except.ok catS =>
      let date_list :=
        match columns.date with
        | some d => columns.datetime_feature_names ++ [d]
        | none => columns.datetime_feature_names
      match stats_for dataset "datetime" date_list with
      | Except.error e => Except.error e
      | Except.ok dtS =>
        let targetS : Option FeatMap :=
          match columns.target with
          | some t =>
            match dfLookup dataset t with
            | some col =>
              if task = some "classification" then
                some [(t, get_features_stats col "cat")]
              else
                some [(t, get_features_stats col "num")]
            | none => none
          | none => none
        Except.ok { num_features_stats := some numS
                    cat_features_stats := some catS
                    datetime_features_stats := some dtS
                    target_stats := targetS }

/-- The distinct-value set of an optional reference column: empty when
the feature is absent from the reference dataset. -/
def refValuesSet : Option (List Val) → Finset Val
  | some rc => rc.toFinset
  | none => ∅

/-- Python set difference of the distinct-value sets of the two dataset
snapshots.  The missing marker of one snapshot is a float `NaN` distinct
from (and unequal to) the missing marker of the other, so a missing
marker on the left is never cancelled by one on the right; it is
therefore removed from the right-hand set before the difference. -/
def pySetDiff (a b : Finset Val) : Finset Val := a \ b.erase Val.vmissing

/-- Whether an optionally-present column has at least one missing value. -/
def colHasMissing : Option (List Val) → Bool
  | some rc => decide (Val.vmissing ∈ rc)
  | none => false

/-- Mirror of the body of the drift loop of `DataProfileAnalyzer.calculate`
for one categorical feature: compute the two set-difference counts, test
`current.hasnans and reference.hasnans` (the reference access raising
`KeyError` when the feature is absent there, after the short-circuit on
the current column), decrement both counts by one when the test holds,
and write the counts onto the record. -/
def annotateCat (refD curD : DataFrame) (p : String × FeaturesProfileStats) :
    Except String (String × FeaturesProfileStats) :=
  match dfGet curD p.1 with
  | Except.error e => Except.error e
  | Except.ok curCol =>
    let newC : ℤ := ((pySetDiff curCol.toFinset (refValuesSet (dfLookup refD p.1))).card : ℤ)
    let unusedC : ℤ := ((pySetDiff (refValuesSet (dfLookup refD p.1)) curCol.toFinset).card : ℤ)
    if Val.vmissing ∈ curCol then
      match dfGet refD p.1 with
      | Except.error e => Except.error e
      | Except.ok refCol =>
        if Val.vmissing ∈ refCol then
          Except.ok (p.1, { p.2 with
            new_in_current_values_count := some (newC - 1)
            unused_in_current_values_count := some (unusedC - 1) })
        else
          Except.ok (p.1, { p.2 with
            new_in_current_values_count := some newC
            unused_in_current_values_count := some unusedC })
    else
      Except.ok (p.1, { p.2 with
        new_in_current_values_count := some newC
        unused_in_current_values_count := some unusedC })

/-- Mirror of `DataProfileAnalyzerResults` (the `columns` field of the
base analyzer result carries no analyzer logic and is omitted). -/
structure DataProfileAnalyzerResults where
  reference_features_stats : DataProfileStats
  current_features_stats : Option DataProfileStats := none
  deriving DecidableEq

/-- Mirror of `DataProfileAnalyzer.calculate`: profile the reference
snapshot, then the current snapshot when supplied, and in that case
annotate every record of the reference categorical bucket with the two
drift counts. -/
def calculate (reference_data : DataFrame) (current_data : Option DataFrame)
    (columns : DatasetColumns) (task : Option String) :
    Except String DataProfileAnalyzerResults :=
  match calculate_stats reference_data columns task with
  | Except.error e => Except.error e
  | Except.ok refStats =>
    match current_data with
    | none => Except.ok { reference_features_stats := refStats }
    | some curD =>
      match calculate_stats curD columns task with
      | Except.error e => Except.error e
      | Except.ok curStats =>
        match refStats.cat_features_stats with
        | none =>
          Except.ok { reference_features_stats := refStats
                      current_features_stats := some curStats }
        | some catList =>
          match mapME (annotateCat reference_data curD) catList with
          | Except.error e => Except.error e
          | Except.ok newCat =>
            Except.ok { reference_features_stats :=
                          { refStats with cat_features_stats := some newCat }
                        current_features_stats := some curStats }

/-- Modelled from the specification's description of the differ: the
`new_in_current` count is the size of the set difference of the distinct
current values minus the distinct reference values (the missing marker
participating as a distinct element, empty reference set when the
feature is absent from the reference dataset), decremented by one when
both columns contain at least one missing value. -/
def specNewInCurrent (refColOpt : Option (List Val)) (curCol : List Val) : ℤ :=
  let raw : ℤ := ((pySetDiff curCol.toFinset (refValuesSet refColOpt)).card : ℤ)
  if Val.vmissing ∈ curCol ∧ colHasMissing refColOpt = true then raw - 1 else raw

/-- Modelled from the specification's description of the differ: the
`unused_in_current` count is the size of the reverse set difference,
decremented by one when both columns contain at least one missing value. -/
def specUnusedInCurrent (refColOpt : Option (List Val)) (curCol : List Val) : ℤ :=
  let raw : ℤ := ((pySetDiff (refValuesSet refColOpt) curCol.toFinset).card : ℤ)
  if Val.vmissing ∈ curCol ∧ colHasMissing refColOpt = true then raw - 1 else raw


/-- Example datasets of the specification's categorical drift example:
reference values a, b and a missing value. -/
def exampleRefData : DataFrame := [("f", [Val.vstr "a", Val.vstr "b", Val.vmissing])]

/-- Current snapshot of the drift example: values a, c and a missing
value. -/
def exampleCurData : DataFrame := [("f", [Val.vstr "a", Val.vstr "c", Val.vmissing])]

/-- Column roles of the drift example: one categorical feature. -/
def exampleColumns : DatasetColumns :=
  { num_feature_names := [], cat_feature_names := ["f"], datetime_feature_names := [] }

/-- Reference snapshot whose distinct values equal the current ones. -/
def exampleRefData2 : DataFrame := [("g", [Val.vstr "a", Val.vmissing])]

/-- Current snapshot with the same distinct values as the reference. -/
def exampleCurData2 : DataFrame := [("g", [Val.vmissing, Val.vstr "a", Val.vstr "a"])]

/-- Column roles of the identical-sets example. -/
def exampleColumns2 : DatasetColumns :=
  { num_feature_names := [], cat_feature_names := ["g"], datetime_feature_names := [] }

theorem filter_ne_length_add_count (l : List Val) (m : Val) :
    (l.filter (fun v => v ≠ m)).length + l.count m = l.length := by
  have h := List.length_eq_countP_add_countP (fun v => decide (v ≠ m)) l
  rw [← List.countP_eq_length_filter]
  have hc : l.count m = l.countP (fun a => decide ¬(decide (a ≠ m) = true)) := by
    rw [List.count]
    congr 1
    funext a
    by_cases ha : a = m <;> simp [ha]
  rw [hc]
  omega

theorem round2_nonneg {x : ℚ} (h0 : 0 ≤ x) : 0 ≤ round2 x := by
  have hf : (0:ℤ) ≤ ⌊100 * x⌋ := Int.le_floor.mpr (by positivity)
  simp only [round2, roundHalfEven]
  refine div_nonneg ?_ (by norm_num)
  split
  · exact_mod_cast hf
  · split
    · exact_mod_cast (show (0:ℤ) ≤ ⌊100 * x⌋ + 1 by omega)
    · split
      · exact_mod_cast hf
      · exact_mod_cast (show (0:ℤ) ≤ ⌊100 * x⌋ + 1 by omega)

theorem round2_le_one {x : ℚ} (h0 : 0 ≤ x) (h1 : x ≤ 1) : round2 x ≤ 1 := by
  have hy1 : 100 * x ≤ 100 := by linarith
  have hfle : (⌊100 * x⌋ : ℚ) ≤ 100 * x := Int.floor_le _
  have hf100 : ⌊100 * x⌋ ≤ 100 := by exact_mod_cast le_trans hfle hy1
  simp only [round2, roundHalfEven]
  rw [div_le_one (by norm_num : (0:ℚ) < 100)]
  split
  next => exact_mod_cast hf100
  next hlt =>
    have hge : (1:ℚ)/2 ≤ 100 * x - (⌊100 * x⌋ : ℚ) := le_of_not_lt hlt
    have hf99 : ⌊100 * x⌋ ≤ 99 := by
      by_contra hcon
      have h100' : ⌊100 * x⌋ = 100 := le_antisymm hf100 (by omega)
      rw [h100'] at hge
      push_cast at hge
      linarith
    split
    · exact_mod_cast (show ⌊100 * x⌋ + 1 ≤ (100:ℤ) by omega)
    · split
      · exact_mod_cast hf100
      · exact_mod_cast (show ⌊100 * x⌋ + 1 ≤ (100:ℤ) by omega)

theorem round2_unit {x : ℚ} (h0 : 0 ≤ x) (h1 : x ≤ 1) :
    0 ≤ round2 x ∧ round2 x ≤ 1 :=
  ⟨round2_nonneg h0, round2_le_one h0 h1⟩

theorem mem_dedupFirstAux {a : Val} :
    ∀ {l seen : List Val}, a ∈ dedupFirstAux seen l ↔ a ∈ l ∧ a ∉ seen := by
  intro l
  induction l with
  | nil => intro seen; simp [dedupFirstAux]
  | cons x xs ih =>
    intro seen
    rw [dedupFirstAux]
    split
    next hx =>
      rw [ih]
      constructor
      · rintro ⟨h1, h2⟩
        exact ⟨List.mem_cons_of_mem _ h1, h2⟩
      · rintro ⟨h1, h2⟩
        rcases List.mem_cons.mp h1 with rfl | h1
        · exact absurd hx h2
        · exact ⟨h1, h2⟩
    next hx =>
      constructor
      · intro h
        rcases List.mem_cons.mp h with rfl | h
        · exact ⟨List.mem_cons_self _ _, hx⟩
        · rcases ih.mp h with ⟨h1, h2⟩
          exact ⟨List.mem_cons_of_mem _ h1, fun hcon => h2 (List.mem_cons_of_mem _ hcon)⟩
      · rintro ⟨h1, h2⟩
        rcases List.mem_cons.mp h1 with rfl | h1
        · exact List.mem_cons_self _ _
        · by_cases hax : a = x
          · exact hax ▸ List.mem_cons_self _ _
          · refine List.mem_cons_of_mem _ (ih.mpr ⟨h1, ?_⟩)
            intro hcon
            rcases List.mem_cons.mp hcon with h | h
            · exact hax h
            · exact h2 h

theorem mem_dedupFirst {a : Val} {l : List Val} : a ∈ dedupFirst l ↔ a ∈ l := by
  rw [dedupFirst, mem_dedupFirstAux]
  simp

theorem dedupFirstAux_length_le :
    ∀ (l seen : List Val), (dedupFirstAux seen l).length ≤ l.length := by
  intro l
  induction l with
  | nil => intro seen; simp [dedupFirstAux]
  | cons x xs ih =>
    intro seen
    rw [dedupFirstAux]
    split
    · exact le_trans (ih seen) (Nat.le_succ _)
    · simpa using Nat.succ_le_succ (ih (x :: seen))

theorem dedupFirst_length_le (l : List Val) : (dedupFirst l).length ≤ l.length :=
  dedupFirstAux_length_le l []

theorem dedupFirst_ne_nil {l : List Val} (h : l ≠ []) : dedupFirst l ≠ [] := by
  cases l with
  | nil => exact absurd rfl h
  | cons x xs =>
    rw [dedupFirst, dedupFirstAux]
    simp only [List.not_mem_nil, if_false]
    exact List.cons_ne_nil _ _

theorem insertDesc_perm (x : Val × ℕ) (l : List (Val × ℕ)) :
    List.Perm (insertDesc x l) (x :: l) := by
  induction l with
  | nil => rfl
  | cons y ys ih =>
    rw [insertDesc]
    split
    · rfl
    · exact List.Perm.trans (List.Perm.cons y ih) (List.Perm.swap x y ys)

theorem sortDesc_perm (l : List (Val × ℕ)) : List.Perm (sortDesc l) l := by
  induction l with
  | nil => rfl
  | cons x xs ih =>
    rw [sortDesc]
    exact List.Perm.trans (insertDesc_perm x (sortDesc xs)) (List.Perm.cons x ih)

theorem freqTable_perm (xs : List Val) :
    List.Perm (freqTable xs) ((dedupFirst xs).map (fun v => (v, xs.count v))) :=
  sortDesc_perm _

theorem mem_freqTable {xs : List Val} {e : Val × ℕ} :
    e ∈ freqTable xs ↔ e.1 ∈ xs ∧ e.2 = xs.count e.1 := by
  rw [(freqTable_perm xs).mem_iff, List.mem_map]
  constructor
  · rintro ⟨v, hv, rfl⟩
    exact ⟨mem_dedupFirst.mp hv, rfl⟩
  · rintro ⟨hv, he⟩
    refine ⟨e.1, mem_dedupFirst.mpr hv, ?_⟩
    cases e with
    | mk v c => simp only at he; rw [he]

theorem freqTable_ne_nil {xs : List Val} (h : xs ≠ []) : freqTable xs ≠ [] := by
  intro hcon
  have hperm := freqTable_perm xs
  rw [hcon] at hperm
  have hmap := hperm.symm.eq_nil
  have hd := dedupFirst_ne_nil h
  cases hdd : dedupFirst xs with
  | nil => exact hd hdd
  | cons a l => rw [hdd] at hmap; simp at hmap

theorem insertDesc_sorted {x : Val × ℕ} {l : List (Val × ℕ)}
    (hl : l.Pairwise (fun a b => b.2 ≤ a.2)) :
    (insertDesc x l).Pairwise (fun a b => b.2 ≤ a.2) := by
  induction l with
  | nil => simp [insertDesc]
  | cons y ys ih =>
    rw [insertDesc]
    rcases List.pairwise_cons.mp hl with ⟨hy, hys⟩
    split
    next hle =>
      refine List.pairwise_cons.mpr ⟨?_, hl⟩
      intro z hz
      rcases List.mem_cons.mp hz with rfl | hz
      · exact hle
      · exact le_trans (hy z hz) hle
    next hgt =>
      refine List.pairwise_cons.mpr ⟨?_, ih hys⟩
      intro z hz
      have hz' := (insertDesc_perm x ys).mem_iff.mp hz
      rcases List.mem_cons.mp hz' with rfl | hz''
      · exact le_of_not_le hgt
      · exact hy z hz''

theorem sortDesc_sorted (l : List (Val × ℕ)) :
    (sortDesc l).Pairwise (fun a b => b.2 ≤ a.2) := by
  induction l with
  | nil => simp [sortDesc]
  | cons x xs ih => exact insertDesc_sorted ih

theorem freqTable_sorted (xs : List Val) :
    (freqTable xs).Pairwise (fun a b => b.2 ≤ a.2) :=
  sortDesc_sorted _

theorem insertDesc_filter_count (x : Val × ℕ) (l : List (Val × ℕ)) (c : ℕ) :
    (insertDesc x l).filter (fun e => e.2 = c) =
      if x.2 = c then x :: l.filter (fun e => e.2 = c)
      else l.filter (fun e => e.2 = c) := by
  induction l with
  | nil => by_cases hx : x.2 = c <;> simp [insertDesc, List.filter_cons, hx]
  | cons y ys ih =>
    rw [insertDesc]
    split
    next hle =>
      by_cases hx : x.2 = c
      · simp [List.filter_cons, hx]
      · simp [List.filter_cons, hx]
    next hgt =>
      have hylt : x.2 < y.2 := lt_of_not_le hgt
      by_cases hx : x.2 = c
      · have hy : y.2 ≠ c := by omega
        rw [List.filter_cons, List.filter_cons]
        simp only [decide_eq_false hy, Bool.false_eq_true, if_false, ih, if_pos hx]
      · rw [List.filter_cons, List.filter_cons, ih, if_neg hx, if_neg hx]

theorem sortDesc_filter_count (l : List (Val × ℕ)) (c : ℕ) :
    (sortDesc l).filter (fun e => e.2 = c) = l.filter (fun e => e.2 = c) := by
  induction l with
  | nil => rfl
  | cons x xs ih =>
    rw [sortDesc, insertDesc_filter_count, List.filter_cons]
    by_cases hx : x.2 = c
    · simp only [if_pos hx, decide_eq_true hx, if_true, ih]
    · simp only [if_neg hx, decide_eq_false hx, Bool.false_eq_true, if_false, ih]

theorem freqTable_filter_count (xs : List Val) (c : ℕ) :
    (freqTable xs).filter (fun e => e.2 = c) =
      ((dedupFirst xs).filter (fun v => xs.count v = c)).map (fun v => (v, c)) := by
  rw [freqTable, sortDesc_filter_count, List.filter_map]
  refine List.map_congr_left ?_
  intro v hv
  have : xs.count v = c := of_decide_eq_true (List.mem_filter.mp hv).2
  simp [Function.comp, this]

theorem gfs_nil (ft : String) : get_features_stats [] ft = { feature_type := ft } := rfl

theorem gfs_feature_type (xs : List Val) (ft : String) :
    (get_features_stats xs ft).feature_type = ft := by
  simp only [get_features_stats]
  repeat' split
  all_goals first | rfl | simp_all

theorem gfs_missing_count {xs : List Val} (ft : String) (h : xs.length ≠ 0) :
    (get_features_stats xs ft).missing_count = some (xs.count Val.vmissing) := by
  simp only [get_features_stats, if_neg h]
  repeat' split
  all_goals first | rfl | simp_all

theorem gfs_count {xs : List Val} (ft : String) (h : xs.length ≠ 0) :
    (get_features_stats xs ft).count = (xs.filter (fun v => v ≠ Val.vmissing)).length := by
  simp only [get_features_stats, if_neg h]
  repeat' split
  all_goals first | rfl | simp_all

theorem gfs_missing_fraction {xs : List Val} (ft : String) (h : xs.length ≠ 0) :
    (get_features_stats xs ft).missing_fraction =
      some (round2 ((xs.count Val.vmissing : ℚ) / (xs.length : ℚ))) := by
  simp only [get_features_stats, if_neg h]
  repeat' split
  all_goals first | rfl | simp_all

theorem gfs_infinite_count {xs : List Val} (ft : String) (h : xs.length ≠ 0) :
    (get_features_stats xs ft).infinite_count =
      (if ft = "num" then some (xs.filter isInfV).length else none) := by
  simp only [get_features_stats, if_neg h]
  repeat' split
  all_goals first | rfl | simp_all

theorem gfs_infinite_fraction {xs : List Val} (ft : String) (h : xs.length ≠ 0) :
    (get_features_stats xs ft).infinite_fraction =
      (if ft = "num" then
        some (round2 (((xs.filter isInfV).length : ℚ) / (xs.length : ℚ)))
      else none) := by
  simp only [get_features_stats, if_neg h]
  repeat' split
  all_goals first | rfl | simp_all

theorem gfs_count_zero {xs : List Val} (ft : String) (h : xs.length ≠ 0)
    (hc : (xs.filter (fun v => v ≠ Val.vmissing)).length = 0) :
    get_features_stats xs ft =
      { feature_type := ft
        count := (xs.filter (fun v => v ≠ Val.vmissing)).length
        missing_count := some (xs.count Val.vmissing)
        missing_fraction := some (round2 ((xs.count Val.vmissing : ℚ) / (xs.length : ℚ)))
        infinite_count := if ft = "num" then some (xs.filter isInfV).length else none
        infinite_fraction :=
          if ft = "num" then
            some (round2 (((xs.filter isInfV).length : ℚ) / (xs.length : ℚ)))
          else none } := by
  simp only [get_features_stats, if_neg h]
  rw [if_neg (by omega : ¬ 0 < (xs.filter (fun v => v ≠ Val.vmissing)).length)]

theorem gfs_mcv {xs : List Val} (ft : String) (h : xs.length ≠ 0)
    (hc : 0 < (xs.filter (fun v => v ≠ Val.vmissing)).length)
    {e0 : Val × ℕ} {rest : List (Val × ℕ)} (ht : freqTable xs = e0 :: rest) :
    (get_features_stats xs ft).most_common_value =
      some (if ft = "datetime" then renderVal e0.1 else e0.1) := by
  simp only [get_features_stats, if_neg h, if_pos hc]
  rw [ht]
  repeat' split
  all_goals first | rfl | simp_all

theorem gfs_mcv_fraction {xs : List Val} (ft : String) (h : xs.length ≠ 0)
    (hc : 0 < (xs.filter (fun v => v ≠ Val.vmissing)).length)
    {e0 : Val × ℕ} {rest : List (Val × ℕ)} (ht : freqTable xs = e0 :: rest) :
    (get_features_stats xs ft).most_common_value_fraction =
      some (round2 ((e0.2 : ℚ) / (xs.length : ℚ))) := by
  simp only [get_features_stats, if_neg h, if_pos hc]
  rw [ht]
  repeat' split
  all_goals first | rfl | simp_all

theorem gfs_unique {xs : List Val} (ft : String) (h : xs.length ≠ 0)
    (hc : 0 < (xs.filter (fun v => v ≠ Val.vmissing)).length)
    {e0 : Val × ℕ} {rest : List (Val × ℕ)} (ht : freqTable xs = e0 :: rest) :
    (get_features_stats xs ft).unique =
      some (dedupFirst (xs.filter (fun v => v ≠ Val.vmissing))).length := by
  simp only [get_features_stats, if_neg h, if_pos hc]
  rw [ht]
  repeat' split
  all_goals first | rfl | simp_all

theorem gfs_unique_fraction {xs : List Val} (ft : String) (h : xs.length ≠ 0)
    (hc : 0 < (xs.filter (fun v => v ≠ Val.vmissing)).length)
    {e0 : Val × ℕ} {rest : List (Val × ℕ)} (ht : freqTable xs = e0 :: rest) :
    (get_features_stats xs ft).unique_fraction =
      some (round2 (((dedupFirst (xs.filter (fun v => v ≠ Val.vmissing))).length : ℚ)
        / (xs.length : ℚ))) := by
  simp only [get_features_stats, if_neg h, if_pos hc]
  rw [ht]
  repeat' split
  all_goals first | rfl | simp_all

theorem gfs_mcnv {xs : List Val} (ft : String) (h : xs.length ≠ 0)
    (hc : 0 < (xs.filter (fun v => v ≠ Val.vmissing)).length)
    {e0 e1 : Val × ℕ} {rest : List (Val × ℕ)} (ht : freqTable xs = e0 :: e1 :: rest)
    (hm : (if ft = "datetime" then renderVal e0.1 else e0.1) = Val.vmissing) :
    (get_features_stats xs ft).most_common_not_null_value = some e1.1 ∧
    (get_features_stats xs ft).most_common_not_null_value_fraction =
      some (round2 ((e1.2 : ℚ) / (xs.length : ℚ))) := by
  constructor
  all_goals
    simp only [get_features_stats, if_neg h, if_pos hc]
    rw [ht]
    simp only [if_pos hm]
    repeat' split
    all_goals first | rfl | simp_all

theorem gfs_mcnv_none {xs : List Val} (ft : String) (h : xs.length ≠ 0)
    (hc : 0 < (xs.filter (fun v => v ≠ Val.vmissing)).length)
    {e0 : Val × ℕ} {rest : List (Val × ℕ)} (ht : freqTable xs = e0 :: rest)
    (hm : (if ft = "datetime" then renderVal e0.1 else e0.1) ≠ Val.vmissing) :
    (get_features_stats xs ft).most_common_not_null_value = none ∧
    (get_features_stats xs ft).most_common_not_null_value_fraction = none := by
  constructor
  all_goals
    simp only [get_features_stats, if_neg h, if_pos hc]
    rw [ht]
    simp only [if_neg hm]
    repeat' split
    all_goals first | rfl | simp_all

theorem gfs_num_fields {xs : List Val} (h : xs.length ≠ 0)
    (hc : 0 < (xs.filter (fun v => v ≠ Val.vmissing)).length)
    {e0 : Val × ℕ} {rest : List (Val × ℕ)} (ht : freqTable xs = e0 :: rest) :
    (get_features_stats xs "num").max =
        listExtreme vmaxV (xs.filter (fun v => v ≠ Val.vmissing)) ∧
    (get_features_stats xs "num").min =
        listExtreme vminV (xs.filter (fun v => v ≠ Val.vmissing)) ∧
    (get_features_stats xs "num").std =
        (if (xs.filter (fun v => v ≠ Val.vmissing)).length < 2 then none
         else some (round2sqrt (sampleVar (xs.filterMap toQ)))) ∧
    (get_features_stats xs "num").mean =
        some (round2 ((xs.filterMap toQ).sum /
          ((xs.filter (fun v => v ≠ Val.vmissing)).length : ℚ))) ∧
    (get_features_stats xs "num").percentile_25 =
        some (round2 (quantileQ (sortQ (xs.filterMap toQ)) (1/4))) ∧
    (get_features_stats xs "num").percentile_50 =
        some (round2 (quantileQ (sortQ (xs.filterMap toQ)) (1/2))) ∧
    (get_features_stats xs "num").percentile_75 =
        some (round2 (quantileQ (sortQ (xs.filterMap toQ)) (3/4))) := by
  have hnd : (("num":String) = "datetime") = False := by simp
  have hnn : (("num":String) = "num") = True := by simp
  refine ⟨?_, ?_, ?_, ?_, ?_, ?_, ?_⟩
  all_goals
    simp only [get_features_stats, if_neg h, if_pos hc]
    rw [ht]
    simp only [hnd, hnn, if_false, if_true]
    repeat' split
    all_goals rfl

/-- C3: for every column of any feature type with at least one row, the
record of the stats calculator satisfies
`count + missing_count = total_row_count`, where the missing count is the
number of missing markers and `count` the number of non-missing values. -/
theorem c3_count_plus_missing_eq_total (xs : List Val) (ft : String)
    (h : 0 < xs.length) :
    (get_features_stats xs ft).missing_count = some (xs.count Val.vmissing) ∧
    (get_features_stats xs ft).count =
      (xs.filter (fun v => v ≠ Val.vmissing)).length ∧
    (get_features_stats xs ft).count + xs.count Val.vmissing = xs.length := by
  have h' : xs.length ≠ 0 := by omega
  refine ⟨gfs_missing_count ft h', gfs_count ft h', ?_⟩
  rw [gfs_count ft h']
  exact filter_ne_length_add_count xs Val.vmissing

theorem c3_witness :
    0 < ([Val.vnum 1, Val.vmissing, Val.vnum 1] : List Val).length ∧
    ((get_features_stats [Val.vnum 1, Val.vmissing, Val.vnum 1] "num").missing_count =
        some (List.count Val.vmissing [Val.vnum 1, Val.vmissing, Val.vnum 1]) ∧
      (get_features_stats [Val.vnum 1, Val.vmissing, Val.vnum 1] "num").count =
        (List.filter (fun v => v ≠ Val.vmissing)
          [Val.vnum 1, Val.vmissing, Val.vnum 1]).length ∧
      (get_features_stats [Val.vnum 1, Val.vmissing, Val.vnum 1] "num").count +
          List.count Val.vmissing [Val.vnum 1, Val.vmissing, Val.vnum 1] =
        ([Val.vnum 1, Val.vmissing, Val.vnum 1] : List Val).length) :=
  ⟨by decide, c3_count_plus_missing_eq_total _ "num" (by decide)⟩

/-- C4: for every feature type, the stats calculator applied to a
zero-length column returns the record whose `feature_type` is set and
whose `count` is `0`, with every other field left unset. -/
theorem c4_empty_column (ft : String) :
    get_features_stats [] ft = { feature_type := ft } ∧
    (get_features_stats [] ft).count = 0 ∧
    (get_features_stats [] ft).feature_type = ft ∧
    (get_features_stats [] ft).missing_count = none ∧
    (get_features_stats [] ft).missing_fraction = none ∧
    (get_features_stats [] ft).infinite_count = none ∧
    (get_features_stats [] ft).infinite_fraction = none ∧
    (get_features_stats [] ft).unique = none ∧
    (get_features_stats [] ft).unique_fraction = none ∧
    (get_features_stats [] ft).most_common_value = none ∧
    (get_features_stats [] ft).most_common_value_fraction = none ∧
    (get_features_stats [] ft).most_common_not_null_value = none ∧
    (get_features_stats [] ft).most_common_not_null_value_fraction = none ∧
    (get_features_stats [] ft).min = none ∧
    (get_features_stats [] ft).max = none ∧
    (get_features_stats [] ft).mean = none ∧
    (get_features_stats [] ft).std = none ∧
    (get_features_stats [] ft).percentile_25 = none ∧
    (get_features_stats [] ft).percentile_50 = none ∧
    (get_features_stats [] ft).percentile_75 = none ∧
    (get_features_stats [] ft).new_in_current_values_count = none ∧
    (get_features_stats [] ft).unused_in_current_values_count = none := by
  refine ⟨rfl, ?_⟩
  repeat' constructor

theorem length_pos_of_filter_pos {xs : List Val}
    (hc : 0 < (xs.filter (fun v => v ≠ Val.vmissing)).length) : xs.length ≠ 0 := by
  have := List.length_filter_le (fun v => decide (v ≠ Val.vmissing)) xs
  omega

theorem xs_ne_nil_of_filter_pos {xs : List Val}
    (hc : 0 < (xs.filter (fun v => v ≠ Val.vmissing)).length) : xs ≠ [] := by
  intro hcon
  subst hcon
  simp at hc

/-- C6: for every column with at least one non-missing value, the
frequency table used to select the most common value lists exactly the
values occurring in the column (the missing marker included) with their
occurrence counts, is ordered by descending count with ties kept in
first-appearance order, and the most common value and its fraction are
taken from the table's first entry (the value rendered as text for a
datetime column), the fraction being the count divided by the row count
rounded to two decimals. -/
theorem c6_frequency_table (xs : List Val) (ft : String)
    (hc : 0 < (xs.filter (fun v => v ≠ Val.vmissing)).length) :
    (∀ v : Val, v ∈ (freqTable xs).map Prod.fst ↔ v ∈ xs) ∧
    (∀ e ∈ freqTable xs, e.2 = xs.count e.1) ∧
    (freqTable xs).Pairwise (fun a b => b.2 ≤ a.2) ∧
    (∀ c : ℕ, (freqTable xs).filter (fun e => e.2 = c) =
        ((dedupFirst xs).filter (fun v => xs.count v = c)).map (fun v => (v, c))) ∧
    (∀ (e0 : Val × ℕ) (rest : List (Val × ℕ)), freqTable xs = e0 :: rest →
      (get_features_stats xs ft).most_common_value =
          some (if ft = "datetime" then renderVal e0.1 else e0.1) ∧
      (get_features_stats xs ft).most_common_value_fraction =
          some (round2 ((e0.2 : ℚ) / (xs.length : ℚ)))) := by
  have h : xs.length ≠ 0 := length_pos_of_filter_pos hc
  refine ⟨?_, ?_, freqTable_sorted xs, freqTable_filter_count xs, ?_⟩
  · intro v
    constructor
    · intro hv
      rcases List.mem_map.mp hv with ⟨e, he, rfl⟩
      exact (mem_freqTable.mp he).1
    · intro hv
      exact List.mem_map.mpr ⟨(v, xs.count v), mem_freqTable.mpr ⟨hv, rfl⟩, rfl⟩
  · intro e he
    exact (mem_freqTable.mp he).2
  · intro e0 rest ht
    exact ⟨gfs_mcv ft h hc ht, gfs_mcv_fraction ft h hc ht⟩

theorem c6_witness :
    0 < (([Val.vstr "b", Val.vstr "a", Val.vstr "a", Val.vmissing] : List Val).filter
          (fun v => v ≠ Val.vmissing)).length ∧
    freqTable [Val.vstr "b", Val.vstr "a", Val.vstr "a", Val.vmissing] =
      [(Val.vstr "a", 2), (Val.vstr "b", 1), (Val.vmissing, 1)] ∧
    (get_features_stats [Val.vstr "b", Val.vstr "a", Val.vstr "a", Val.vmissing]
        "cat").most_common_value = some (Val.vstr "a") ∧
    (get_features_stats [Val.vstr "b", Val.vstr "a", Val.vstr "a", Val.vmissing]
        "cat").most_common_value_fraction = some (round2 ((2 : ℚ) / 4)) := by
  refine ⟨by decide, by decide, ?_⟩
  have hmain := (c6_frequency_table
    [Val.vstr "b", Val.vstr "a", Val.vstr "a", Val.vmissing] "cat" (by decide)).2.2.2.2
      (Val.vstr "a", 2) [(Val.vstr "b", 1), (Val.vmissing, 1)] (by decide)
  simpa using hmain

theorem rest_ne_nil_of_head_missing {xs : List Val}
    (hc : 0 < (xs.filter (fun v => v ≠ Val.vmissing)).length)
    {e0 : Val × ℕ} {rest : List (Val × ℕ)} (ht : freqTable xs = e0 :: rest)
    (hm : e0.1 = Val.vmissing) : rest ≠ [] := by
  have hex : ∃ v ∈ xs, v ≠ Val.vmissing := by
    cases hfl : xs.filter (fun v => v ≠ Val.vmissing) with
    | nil => rw [hfl] at hc; simp at hc
    | cons w ws =>
      have hw : w ∈ xs.filter (fun v => v ≠ Val.vmissing) := by
        rw [hfl]; exact List.mem_cons_self _ _
      have := List.mem_filter.mp hw
      exact ⟨w, this.1, of_decide_eq_true this.2⟩
  rcases hex with ⟨v, hv, hvm⟩
  have hmem : (v, xs.count v) ∈ freqTable xs := mem_freqTable.mpr ⟨hv, rfl⟩
  rw [ht] at hmem
  rcases List.mem_cons.mp hmem with heq | hmem
  · have hv0 : v = e0.1 := by rw [← heq]
    exact absurd (hv0.trans hm) hvm
  · intro hcon
    rw [hcon] at hmem
    exact List.not_mem_nil _ hmem

/-- C5: for every column with at least one non-missing value, the
`most_common_not_null_value` and its fraction are set exactly when the
most common value is the missing marker, and in that case they are taken
from the second entry (index 1) of the frequency table. -/
theorem c5_most_common_not_null (xs : List Val) (ft : String)
    (hc : 0 < (xs.filter (fun v => v ≠ Val.vmissing)).length) :
    ((get_features_stats xs ft).most_common_not_null_value.isSome ↔
      (get_features_stats xs ft).most_common_value = some Val.vmissing) ∧
    ((get_features_stats xs ft).most_common_not_null_value_fraction.isSome ↔
      (get_features_stats xs ft).most_common_value = some Val.vmissing) ∧
    (∀ (e0 e1 : Val × ℕ) (rest : List (Val × ℕ)),
      freqTable xs = e0 :: e1 :: rest →
      (get_features_stats xs ft).most_common_value = some Val.vmissing →
      (get_features_stats xs ft).most_common_not_null_value = some e1.1 ∧
      (get_features_stats xs ft).most_common_not_null_value_fraction =
        some (round2 ((e1.2 : ℚ) / (xs.length : ℚ)))) := by
  have h : xs.length ≠ 0 := length_pos_of_filter_pos hc
  have hnn : xs ≠ [] := xs_ne_nil_of_filter_pos hc
  obtain ⟨e0, rest, ht⟩ : ∃ e0 rest, freqTable xs = e0 :: rest := by
    cases hft : freqTable xs with
    | nil => exact absurd hft (freqTable_ne_nil hnn)
    | cons a l => exact ⟨a, l, rfl⟩
  have hmcv := gfs_mcv ft h hc ht
  by_cases hm : (if ft = "datetime" then renderVal e0.1 else e0.1) = Val.vmissing
  · have hm0 : e0.1 = Val.vmissing := by
      by_cases hdt : ft = "datetime"
      · rw [if_pos hdt] at hm; exact absurd hm (by simp [renderVal])
      · rwa [if_neg hdt] at hm
    have hrest : rest ≠ [] := rest_ne_nil_of_head_missing hc ht hm0
    obtain ⟨e1, rest2, hrw⟩ : ∃ e1 rest2, rest = e1 :: rest2 := by
      cases rest with
      | nil => exact absurd rfl hrest
      | cons a l => exact ⟨a, l, rfl⟩
    rw [hrw] at ht
    have hpair := gfs_mcnv ft h hc ht hm
    have hval : (get_features_stats xs ft).most_common_value = some Val.vmissing := by
      rw [hmcv, hm]
    refine ⟨?_, ?_, ?_⟩
    · rw [hpair.1]; simp [hval]
    · rw [hpair.2]; simp [hval]
    · intro f0 f1 frest hft2 _
      rw [ht] at hft2
      have hf1 : f1 = e1 := by
        have := (List.cons.injEq _ _ _ _).mp hft2
        exact ((List.cons.injEq _ _ _ _).mp this.2).1.symm
      rw [hf1]
      exact hpair
  · have hpair := gfs_mcnv_none ft h hc ht hm
    have hval : (get_features_stats xs ft).most_common_value ≠ some Val.vmissing := by
      rw [hmcv]
      intro hcon
      exact hm (Option.some.inj hcon)
    refine ⟨?_, ?_, ?_⟩
    · rw [hpair.1]; simp [hval]
    · rw [hpair.2]; simp [hval]
    · intro f0 f1 frest hft2 hcon
      exact absurd hcon hval

theorem c5_witness :
    0 < (([Val.vmissing, Val.vmissing, Val.vstr "x", Val.vstr "y"] : List Val).filter
          (fun v => v ≠ Val.vmissing)).length ∧
    ((get_features_stats [Val.vmissing, Val.vmissing, Val.vstr "x", Val.vstr "y"]
        "cat").most_common_not_null_value = some (Val.vstr "x") ∧
      (get_features_stats [Val.vmissing, Val.vmissing, Val.vstr "x", Val.vstr "y"]
        "cat").most_common_not_null_value_fraction =
          some (round2 ((1 : ℚ) / (4 : ℚ)))) ∧
    (get_features_stats [Val.vmissing, Val.vmissing, Val.vstr "x", Val.vstr "y"]
        "cat").most_common_value = some Val.vmissing ∧
    (get_features_stats [Val.vmissing, Val.vmissing, Val.vstr "x", Val.vstr "y"]
        "cat").most_common_value_fraction = some ((1 : ℚ) / 2) ∧
    (get_features_stats [Val.vmissing, Val.vmissing, Val.vstr "x", Val.vstr "y"]
        "cat").most_common_not_null_value_fraction = some ((1 : ℚ) / 4) := by
  have hlen : ([Val.vmissing, Val.vmissing, Val.vstr "x", Val.vstr "y"] : List Val).length ≠ 0 := by
    decide
  have hcpos : 0 < (([Val.vmissing, Val.vmissing, Val.vstr "x", Val.vstr "y"] : List Val).filter
      (fun v => v ≠ Val.vmissing)).length := by decide
  have ht : freqTable [Val.vmissing, Val.vmissing, Val.vstr "x", Val.vstr "y"] =
      (Val.vmissing, 2) :: (Val.vstr "x", 1) :: [(Val.vstr "y", 1)] := by decide
  have hmcv := gfs_mcv "cat" hlen hcpos ht
  simp only [if_neg (by decide : ¬("cat" : String) = "datetime")] at hmcv
  have hmain := (c5_most_common_not_null
      [Val.vmissing, Val.vmissing, Val.vstr "x", Val.vstr "y"] "cat" hcpos).2.2
    (Val.vmissing, 2) (Val.vstr "x", 1) [(Val.vstr "y", 1)] ht hmcv
  have hfra := gfs_mcv_fraction "cat" hlen hcpos ht
  refine ⟨hcpos, ⟨hmain.1, ?_⟩, hmcv, ?_, ?_⟩
  · rw [hmain.2]
    norm_num
  · rw [hfra]
    norm_num [round2, roundHalfEven]
  · rw [hmain.2]
    norm_num [round2, roundHalfEven]

theorem frac_round2_unit {k n : ℕ} (hk : k ≤ n) (hn : n ≠ 0) :
    0 ≤ round2 ((k : ℚ) / (n : ℚ)) ∧ round2 ((k : ℚ) / (n : ℚ)) ≤ 1 := by
  have hnpos : (0:ℚ) < (n : ℚ) := by exact_mod_cast Nat.pos_of_ne_zero hn
  have h0 : 0 ≤ (k : ℚ) / (n : ℚ) := div_nonneg (by positivity) (le_of_lt hnpos)
  have h1 : (k : ℚ) / (n : ℚ) ≤ 1 := by
    rw [div_le_one hnpos]
    exact_mod_cast hk
  exact round2_unit h0 h1

/-- C7: every fraction field the calculator sets lies in the closed
interval `[0, 1]` and equals the corresponding count divided by the
total row count, rounded to two decimal places. -/
theorem c7_fraction_fields (xs : List Val) (ft : String) :
    (∀ q : ℚ, (get_features_stats xs ft).missing_fraction = some q →
      (0 ≤ q ∧ q ≤ 1) ∧
      q = round2 ((xs.count Val.vmissing : ℚ) / (xs.length : ℚ))) ∧
    (∀ q : ℚ, (get_features_stats xs ft).infinite_fraction = some q →
      (0 ≤ q ∧ q ≤ 1) ∧
      q = round2 (((xs.filter isInfV).length : ℚ) / (xs.length : ℚ))) ∧
    (∀ q : ℚ, (get_features_stats xs ft).unique_fraction = some q →
      (0 ≤ q ∧ q ≤ 1) ∧
      ∃ u : ℕ, (get_features_stats xs ft).unique = some u ∧
        q = round2 ((u : ℚ) / (xs.length : ℚ))) ∧
    (∀ q : ℚ, (get_features_stats xs ft).most_common_value_fraction = some q →
      (0 ≤ q ∧ q ≤ 1) ∧
      ∃ (e0 : Val × ℕ) (rest : List (Val × ℕ)), freqTable xs = e0 :: rest ∧
        e0.2 = xs.count e0.1 ∧ q = round2 ((e0.2 : ℚ) / (xs.length : ℚ))) ∧
    (∀ q : ℚ, (get_features_stats xs ft).most_common_not_null_value_fraction = some q →
      (0 ≤ q ∧ q ≤ 1) ∧
      ∃ (e0 e1 : Val × ℕ) (rest : List (Val × ℕ)), freqTable xs = e0 :: e1 :: rest ∧
        e1.2 = xs.count e1.1 ∧ q = round2 ((e1.2 : ℚ) / (xs.length : ℚ))) := by
  by_cases hl : xs.length = 0
  · have hnil : xs = [] := List.length_eq_zero.mp hl
    subst hnil
    rw [gfs_nil]
    refine ⟨?_, ?_, ?_, ?_, ?_⟩ <;> intro q hq <;> exact absurd hq (by simp)
  · refine ⟨?_, ?_, ?_, ?_, ?_⟩ <;> intro q hq
    · rw [gfs_missing_fraction ft hl] at hq
      have hq' := (Option.some.inj hq).symm
      subst hq'
      exact ⟨frac_round2_unit (List.count_le_length _ _) hl, rfl⟩
    · by_cases hnum : ft = "num"
      · rw [gfs_infinite_fraction ft hl, if_pos hnum] at hq
        have hq' := (Option.some.inj hq).symm
        subst hq'
        exact ⟨frac_round2_unit (List.length_filter_le _ _) hl, rfl⟩
      · rw [gfs_infinite_fraction ft hl, if_neg hnum] at hq
        exact absurd hq (by simp)
    · by_cases hc : 0 < (xs.filter (fun v => v ≠ Val.vmissing)).length
      · obtain ⟨e0, rest, ht⟩ : ∃ e0 rest, freqTable xs = e0 :: rest := by
          cases hft : freqTable xs with
          | nil => exact absurd hft (freqTable_ne_nil (fun hcon => hl (by rw [hcon]; rfl)))
          | cons a l => exact ⟨a, l, rfl⟩
        rw [gfs_unique_fraction ft hl hc ht] at hq
        have hq' := (Option.some.inj hq).symm
        subst hq'
        have hle : (dedupFirst (xs.filter (fun v => v ≠ Val.vmissing))).length ≤ xs.length :=
          le_trans (dedupFirst_length_le _) (List.length_filter_le _ _)
        exact ⟨frac_round2_unit hle hl, _, gfs_unique ft hl hc ht, rfl⟩
      · rw [gfs_count_zero ft hl (by omega)] at hq
        exact absurd hq (by simp)
    · by_cases hc : 0 < (xs.filter (fun v => v ≠ Val.vmissing)).length
      · obtain ⟨e0, rest, ht⟩ : ∃ e0 rest, freqTable xs = e0 :: rest := by
          cases hft : freqTable xs with
          | nil => exact absurd hft (freqTable_ne_nil (fun hcon => hl (by rw [hcon]; rfl)))
          | cons a l => exact ⟨a, l, rfl⟩
        rw [gfs_mcv_fraction ft hl hc ht] at hq
        have hq' := (Option.some.inj hq).symm
        subst hq'
        have hcount : e0.2 = xs.count e0.1 :=
          (mem_freqTable.mp (ht ▸ List.mem_cons_self e0 rest)).2
        have hle : e0.2 ≤ xs.length := hcount ▸ List.count_le_length _ _
        exact ⟨frac_round2_unit hle hl, e0, rest, ht, hcount, rfl⟩
      · rw [gfs_count_zero ft hl (by omega)] at hq
        exact absurd hq (by simp)
    · by_cases hc : 0 < (xs.filter (fun v => v ≠ Val.vmissing)).length
      · obtain ⟨e0, rest, ht⟩ : ∃ e0 rest, freqTable xs = e0 :: rest := by
          cases hft : freqTable xs with
          | nil => exact absurd hft (freqTable_ne_nil (fun hcon => hl (by rw [hcon]; rfl)))
          | cons a l => exact ⟨a, l, rfl⟩
        by_cases hm : (if ft = "datetime" then renderVal e0.1 else e0.1) = Val.vmissing
        · have hm0 : e0.1 = Val.vmissing := by
            by_cases hdt : ft = "datetime"
            · rw [if_pos hdt] at hm; exact absurd hm (by simp [renderVal])
            · rwa [if_neg hdt] at hm
          obtain ⟨e1, rest2, hrw⟩ : ∃ e1 rest2, rest = e1 :: rest2 := by
            cases hr : rest with
            | nil => exact absurd rfl (hr ▸ rest_ne_nil_of_head_missing hc ht hm0)
            | cons a l => exact ⟨a, l, rfl⟩
          rw [hrw] at ht
          rw [(gfs_mcnv ft hl hc ht hm).2] at hq
          have hq' := (Option.some.inj hq).symm
          subst hq'
          have hcount : e1.2 = xs.count e1.1 :=
            (mem_freqTable.mp (ht ▸ List.mem_cons_of_mem e0 (List.mem_cons_self e1 rest2))).2
          have hle : e1.2 ≤ xs.length := hcount ▸ List.count_le_length _ _
          exact ⟨frac_round2_unit hle hl, e0, e1, rest2, ht, hcount, rfl⟩
        · rw [(gfs_mcnv_none ft hl hc ht hm).2] at hq
          exact absurd hq (by simp)
      · rw [gfs_count_zero ft hl (by omega)] at hq
        exact absurd hq (by simp)

theorem c7_witness :
    ((0:ℚ) ≤ 67/100 ∧ (67:ℚ)/100 ≤ 1) ∧
    (get_features_stats [Val.vmissing, Val.vmissing, Val.vnum 1] "num").missing_fraction =
      some ((67:ℚ)/100) ∧
    (67:ℚ)/100 = round2 ((List.count Val.vmissing
        [Val.vmissing, Val.vmissing, Val.vnum 1] : ℚ) /
      (([Val.vmissing, Val.vmissing, Val.vnum 1] : List Val).length : ℚ)) := by
  have hl : ([Val.vmissing, Val.vmissing, Val.vnum 1] : List Val).length ≠ 0 := by decide
  have hfra := @gfs_missing_fraction [Val.vmissing, Val.vmissing, Val.vnum 1] "num" hl
  have hcount : List.count Val.vmissing [Val.vmissing, Val.vmissing, Val.vnum 1] = 2 := by
    decide
  have hlen3 : ([Val.vmissing, Val.vmissing, Val.vnum 1] : List Val).length = 3 := by decide
  have hval : round2 ((List.count Val.vmissing
      [Val.vmissing, Val.vmissing, Val.vnum 1] : ℚ) /
      (([Val.vmissing, Val.vmissing, Val.vnum 1] : List Val).length : ℚ)) = (67:ℚ)/100 := by
    rw [hcount, hlen3]
    norm_num [round2, roundHalfEven]
  have hq : (get_features_stats [Val.vmissing, Val.vmissing, Val.vnum 1]
      "num").missing_fraction = some ((67:ℚ)/100) := by rw [hfra, hval]
  have hmain := (c7_fraction_fields [Val.vmissing, Val.vmissing, Val.vnum 1] "num").1
    ((67:ℚ)/100) hq
  exact ⟨hmain.1, hq, hmain.2⟩

/-- C8: by-name lookup searches the buckets in the fixed priority order
target, datetime, categorical, numeric, returns the record from the
first bucket containing the name, and raises the feature-not-found
error (`KeyError` carrying the name) when no bucket contains it. -/
theorem c8_getitem_priority (s : DataProfileStats) (item : String) :
    (∀ r, bucketFind s.target_stats item = some r → getItem s item = Except.ok r) ∧
    (bucketFind s.target_stats item = none →
      ∀ r, bucketFind s.datetime_features_stats item = some r →
        getItem s item = Except.ok r) ∧
    (bucketFind s.target_stats item = none →
      bucketFind s.datetime_features_stats item = none →
      ∀ r, bucketFind s.cat_features_stats item = some r →
        getItem s item = Except.ok r) ∧
    (bucketFind s.target_stats item = none →
      bucketFind s.datetime_features_stats item = none →
      bucketFind s.cat_features_stats item = none →
      ∀ r, bucketFind s.num_features_stats item = some r →
        getItem s item = Except.ok r) ∧
    (bucketFind s.target_stats item = none →
      bucketFind s.datetime_features_stats item = none →
      bucketFind s.cat_features_stats item = none →
      bucketFind s.num_features_stats item = none →
      getItem s item = Except.error item) := by
  refine ⟨?_, ?_, ?_, ?_, ?_⟩
  · intro r h
    rw [getItem, h]
  · intro h1 r h
    rw [getItem, h1, h]
  · intro h1 h2 r h
    rw [getItem, h1, h2, h]
  · intro h1 h2 h3 r h
    rw [getItem, h1, h2, h3, h]
  · intro h1 h2 h3 h4
    rw [getItem, h1, h2, h3, h4]

theorem c8_witness :
    (bucketFind (some [("t", ({ feature_type := "cat" } : FeaturesProfileStats))]) "t" =
      some { feature_type := "cat" } ∧
     getItem { target_stats := some [("t", { feature_type := "cat" })],
               num_features_stats := some [("t", { feature_type := "num" })] } "t" =
       Except.ok { feature_type := "cat" }) ∧
    (getItem { target_stats := some [("t", { feature_type := "cat" })],
               num_features_stats := some [("t", { feature_type := "num" })] } "zz" =
       Except.error "zz") := by
  constructor
  · constructor
    · decide
    · exact (c8_getitem_priority
        { target_stats := some [("t", { feature_type := "cat" })],
          num_features_stats := some [("t", { feature_type := "num" })] } "t").1
        { feature_type := "cat" } (by decide)
  · exact (c8_getitem_priority
      { target_stats := some [("t", { feature_type := "cat" })],
        num_features_stats := some [("t", { feature_type := "num" })] } "zz").2.2.2.2
      (by decide) (by decide) (by decide) (by decide)

/-- Keys of a bucket are pairwise distinct, as they are in a Python
`dict`. -/
def keysNodup (l : FeatMap) : Prop := (l.map Prod.fst).Nodup

theorem lookupA_setKey {β : Type} (b : List (String × β)) (k k' : String) (v : β) :
    lookupA (setKey b k v) k' = if k' = k then some v else lookupA b k' := by
  induction b with
  | nil => rfl
  | cons a rest ih =>
    rw [setKey]
    split
    next h1 =>
      subst h1
      by_cases hk : k' = a.1
      · simp [lookupA, hk]
      · simp [lookupA, hk]
    next h1 =>
      by_cases hk : k' = a.1
      · have hne : ¬ k' = k := fun hcon => h1 (by rw [← hcon, hk])
        simp [lookupA, hk, hne, h1]
      · simp only [lookupA, if_neg hk, ih]

theorem lookupA_none_of_not_mem {β : Type} {adds : List (String × β)} {k : String}
    (h : k ∉ adds.map Prod.fst) : lookupA adds k = none := by
  induction adds with
  | nil => rfl
  | cons a rest ih =>
    rw [lookupA]
    have hne : ¬ k = a.1 := fun hcon => h (by rw [hcon]; exact List.mem_map_of_mem _ (List.mem_cons_self _ _))
    rw [if_neg hne]
    exact ih (fun hcon => h (List.mem_cons_of_mem _ hcon))

theorem lookupA_updateAssoc_of_none {β : Type} {adds : List (String × β)} {k : String}
    (h : lookupA adds k = none) :
    ∀ b, lookupA (updateAssoc b adds) k = lookupA b k := by
  induction adds with
  | nil => intro b; rfl
  | cons a rest ih =>
    intro b
    rw [lookupA] at h
    by_cases hk : k = a.1
    · rw [if_pos hk] at h; exact absurd h (by simp)
    · rw [if_neg hk] at h
      have : updateAssoc b (a :: rest) = updateAssoc (setKey b a.1 a.2) rest := rfl
      rw [this, ih h, lookupA_setKey, if_neg hk]

theorem lookupA_updateAssoc_of_some {β : Type} {adds : List (String × β)} {k : String}
    {v : β} (hnd : (adds.map Prod.fst).Nodup) (h : lookupA adds k = some v) :
    ∀ b, lookupA (updateAssoc b adds) k = some v := by
  induction adds with
  | nil => intro b; exact absurd h (by simp [lookupA])
  | cons a rest ih =>
    intro b
    rw [lookupA] at h
    have hstep : updateAssoc b (a :: rest) = updateAssoc (setKey b a.1 a.2) rest := rfl
    by_cases hk : k = a.1
    · rw [if_pos hk] at h
      have hnm : k ∉ rest.map Prod.fst := by
        rw [hk]
        exact (List.nodup_cons.mp hnd).1
      rw [hstep, lookupA_updateAssoc_of_none (lookupA_none_of_not_mem hnm),
        lookupA_setKey, if_pos hk, h]
    · rw [if_neg hk] at h
      rw [hstep]
      exact ih (List.nodup_cons.mp hnd).2 h (setKey b a.1 a.2)

theorem lookupA_updateBucket_none {acc : FeatMap} {b : Option FeatMap} {nm : String}
    (h : bucketFind b nm = none) :
    lookupA (updateBucket acc b) nm = lookupA acc nm := by
  cases b with
  | none => rfl
  | some fs =>
    exact lookupA_updateAssoc_of_none (by simpa [bucketFind] using h) acc

theorem lookupA_updateBucket_some {acc : FeatMap} {b : Option FeatMap} {nm : String}
    {r : FeaturesProfileStats}
    (hnd : ∀ fs, b = some fs → keysNodup fs)
    (h : bucketFind b nm = some r) :
    lookupA (updateBucket acc b) nm = some r := by
  cases b with
  | none => exact absurd h (by simp [bucketFind])
  | some fs =>
    exact lookupA_updateAssoc_of_some (hnd fs rfl) (by simpa [bucketFind] using h) acc

/-- C10: the flattening `get_all_features` resolves a name occurring in
several buckets to the record of the last bucket in the order target,
datetime, categorical, numeric (later buckets overwrite earlier ones) —
the reverse of the priority of the by-name lookup, which resolves the
same name to the target bucket; when a name occurs in exactly one
bucket, the flattened mapping and the by-name lookup agree. -/
theorem c10_get_all_features (s : DataProfileStats) (nm : String) :
    (∀ (tL dL cL nL : FeatMap) (rt rd rc rn : FeaturesProfileStats),
      s.target_stats = some tL → s.datetime_features_stats = some dL →
      s.cat_features_stats = some cL → s.num_features_stats = some nL →
      keysNodup tL → keysNodup dL → keysNodup cL → keysNodup nL →
      lookupA tL nm = some rt → lookupA dL nm = some rd →
      lookupA cL nm = some rc → lookupA nL nm = some rn →
      lookupA (get_all_features s) nm = some rn ∧ getItem s nm = Except.ok rt) ∧
    (∀ (tL : FeatMap) (r : FeaturesProfileStats),
      s.target_stats = some tL → keysNodup tL → lookupA tL nm = some r →
      bucketFind s.datetime_features_stats nm = none →
      bucketFind s.cat_features_stats nm = none →
      bucketFind s.num_features_stats nm = none →
      lookupA (get_all_features s) nm = some r ∧ getItem s nm = Except.ok r) ∧
    (∀ (dL : FeatMap) (r : FeaturesProfileStats),
      bucketFind s.target_stats nm = none →
      s.datetime_features_stats = some dL → keysNodup dL → lookupA dL nm = some r →
      bucketFind s.cat_features_stats nm = none →
      bucketFind s.num_features_stats nm = none →
      lookupA (get_all_features s) nm = some r ∧ getItem s nm = Except.ok r) ∧
    (∀ (cL : FeatMap) (r : FeaturesProfileStats),
      bucketFind s.target_stats nm = none →
      bucketFind s.datetime_features_stats nm = none →
      s.cat_features_stats = some cL → keysNodup cL → lookupA cL nm = some r →
      bucketFind s.num_features_stats nm = none →
      lookupA (get_all_features s) nm = some r ∧ getItem s nm = Except.ok r) ∧
    (∀ (nL : FeatMap) (r : FeaturesProfileStats),
      bucketFind s.target_stats nm = none →
      bucketFind s.datetime_features_stats nm = none →
      bucketFind s.cat_features_stats nm = none →
      s.num_features_stats = some nL → keysNodup nL → lookupA nL nm = some r →
      lookupA (get_all_features s) nm = some r ∧ getItem s nm = Except.ok r) := by
  refine ⟨?_, ?_, ?_, ?_, ?_⟩
  · intro tL dL cL nL rt rd rc rn hT hD hC hN ndT ndD ndC ndN lT lD lC lN
    constructor
    · rw [get_all_features]
      exact lookupA_updateBucket_some
        (fun fs hfs => by rw [hN] at hfs; exact (Option.some.inj hfs) ▸ ndN)
        (by rw [hN, bucketFind, lN])
    · rw [getItem, hT]
      simp only [bucketFind, lT]
  · intro tL r hT ndT lT hD hC hN
    constructor
    · rw [get_all_features, lookupA_updateBucket_none hN, lookupA_updateBucket_none hC,
        lookupA_updateBucket_none hD]
      exact lookupA_updateBucket_some
        (fun fs hfs => by rw [hT] at hfs; exact (Option.some.inj hfs) ▸ ndT)
        (by rw [hT, bucketFind, lT])
    · rw [getItem, hT]
      simp only [bucketFind, lT]
  · intro dL r hT hD ndD lD hC hN
    constructor
    · rw [get_all_features, lookupA_updateBucket_none hN, lookupA_updateBucket_none hC]
      exact lookupA_updateBucket_some
        (fun fs hfs => by rw [hD] at hfs; exact (Option.some.inj hfs) ▸ ndD)
        (by rw [hD, bucketFind, lD])
    · rw [getItem, hT, hD]
      simp only [bucketFind, lD]
  · intro cL r hT hD hC ndC lC hN
    constructor
    · rw [get_all_features, lookupA_updateBucket_none hN]
      exact lookupA_updateBucket_some
        (fun fs hfs => by rw [hC] at hfs; exact (Option.some.inj hfs) ▸ ndC)
        (by rw [hC, bucketFind, lC])
    · rw [getItem, hT, hD, hC]
      simp only [bucketFind, lC]
  · intro nL r hT hD hC hN ndN lN
    constructor
    · rw [get_all_features]
      exact lookupA_updateBucket_some
        (fun fs hfs => by rw [hN] at hfs; exact (Option.some.inj hfs) ▸ ndN)
        (by rw [hN, bucketFind, lN])
    · rw [getItem, hT, hD, hC, hN]
      simp only [bucketFind, lN]

theorem c10_witness :
    keysNodup [("f", ({ feature_type := "t" } : FeaturesProfileStats))] ∧
    lookupA (get_all_features
      { target_stats := some [("f", { feature_type := "t" })]
        datetime_features_stats := some [("f", { feature_type := "datetime" })]
        cat_features_stats := some [("f", { feature_type := "cat" })]
        num_features_stats := some [("f", { feature_type := "num" })] }) "f" =
      some { feature_type := "num" } ∧
    getItem
      { target_stats := some [("f", { feature_type := "t" })]
        datetime_features_stats := some [("f", { feature_type := "datetime" })]
        cat_features_stats := some [("f", { feature_type := "cat" })]
        num_features_stats := some [("f", { feature_type := "num" })] } "f" =
      Except.ok { feature_type := "t" } := by
  have hmain := (c10_get_all_features
    { target_stats := some [("f", { feature_type := "t" })]
      datetime_features_stats := some [("f", { feature_type := "datetime" })]
      cat_features_stats := some [("f", { feature_type := "cat" })]
      num_features_stats := some [("f", { feature_type := "num" })] } "f").1
    [("f", { feature_type := "t" })] [("f", { feature_type := "datetime" })]
    [("f", { feature_type := "cat" })] [("f", { feature_type := "num" })]
    { feature_type := "t" } { feature_type := "datetime" }
    { feature_type := "cat" } { feature_type := "num" }
    rfl rfl rfl rfl (by unfold keysNodup; decide) (by unfold keysNodup; decide)
    (by unfold keysNodup; decide) (by unfold keysNodup; decide)
    (by decide) (by decide) (by decide) (by decide)
  exact ⟨by unfold keysNodup; decide, hmain.1, hmain.2⟩

theorem isqrtQ_floor_sqrt {x : ℚ} (hx : 0 ≤ x) :
    ⌊Real.sqrt (x : ℝ)⌋ = (isqrtQ x : ℤ) := by
  have hfl : (0:ℤ) ≤ ⌊x⌋ := Int.le_floor.mpr (by exact_mod_cast hx)
  set a : ℕ := Int.toNat ⌊x⌋ with ha
  have hax : ((a : ℚ)) ≤ x := by
    rw [ha]
    calc ((Int.toNat ⌊x⌋ : ℤ) : ℚ) = (⌊x⌋ : ℚ) := by rw [Int.toNat_of_nonneg hfl]
    _ ≤ x := Int.floor_le x
  have hxa : x < (a : ℚ) + 1 := by
    rw [ha]
    calc x < (⌊x⌋ : ℚ) + 1 := Int.lt_floor_add_one x
    _ = ((Int.toNat ⌊x⌋ : ℤ) : ℚ) + 1 := by rw [Int.toNat_of_nonneg hfl]
  set k : ℕ := Nat.sqrt a with hk
  have h1 : (k : ℝ) ≤ Real.sqrt (x : ℝ) := by
    calc (k : ℝ) ≤ Real.sqrt (a : ℝ) := Real.nat_sqrt_le_real_sqrt
    _ ≤ Real.sqrt (x : ℝ) := Real.sqrt_le_sqrt (by exact_mod_cast hax)
  have h2 : Real.sqrt (x : ℝ) < (k : ℝ) + 1 := by
    rw [Real.sqrt_lt' (by positivity)]
    have hlt : a < (k + 1) ^ 2 := Nat.lt_succ_sqrt' a
    have : (x : ℝ) < (a : ℝ) + 1 := by exact_mod_cast hxa
    calc (x : ℝ) < (a : ℝ) + 1 := this
    _ ≤ ((k + 1 : ℕ) ^ 2 : ℝ) := by exact_mod_cast Nat.succ_le_of_lt hlt
    _ = ((k : ℝ) + 1) ^ 2 := by push_cast; ring
  rw [Int.floor_eq_iff]
  constructor
  · rw [isqrtQ, ← ha, ← hk]; push_cast; exact h1
  · rw [isqrtQ, ← ha, ← hk]; push_cast; exact h2

theorem rheSqrt_eq_rheR {x : ℚ} (hx : 0 ≤ x) :
    ((rheSqrt x : ℕ) : ℤ) = rheR (Real.sqrt (x : ℝ)) := by
  have hfl := isqrtQ_floor_sqrt hx
  simp only [rheSqrt, rheR]
  set k : ℕ := isqrtQ x with hk
  rw [hfl]
  have hkpos : (0:ℝ) < (k : ℝ) + 1/2 := by positivity
  have hA : (Real.sqrt (x:ℝ) - (((k:ℤ)) : ℝ) < 1/2) ↔ (x < ((k : ℚ) + 1/2) ^ 2) := by
    rw [sub_lt_iff_lt_add']
    rw [show ((((k:ℤ)):ℝ) + 1/2) = ((k:ℝ) + 1/2) by push_cast; ring]
    rw [Real.sqrt_lt' hkpos]
    rw [show (((k:ℝ)) + 1/2)^2 = ((((k:ℚ) + 1/2)^2 : ℚ) : ℝ) by push_cast; ring]
    exact Rat.cast_lt
  have hB : ((1:ℝ)/2 < Real.sqrt (x:ℝ) - (((k:ℤ)) : ℝ)) ↔ (((k : ℚ) + 1/2) ^ 2 < x) := by
    rw [lt_sub_iff_add_lt']
    rw [show ((((k:ℤ)):ℝ) + 1/2) = ((k:ℝ) + 1/2) by push_cast; ring]
    rw [Real.lt_sqrt (le_of_lt hkpos)]
    rw [show (((k:ℝ)) + 1/2)^2 = ((((k:ℚ) + 1/2)^2 : ℚ) : ℝ) by push_cast; ring]
    exact Rat.cast_lt
  have hC : ((k:ℤ) % 2 = 0) ↔ (k % 2 = 0) := by omega
  by_cases hA1 : x < ((k : ℚ) + 1/2) ^ 2
  · rw [if_pos hA1, if_pos (hA.mpr hA1)]
  · rw [if_neg hA1, if_neg (fun h => hA1 (hA.mp h))]
    by_cases hB1 : ((k : ℚ) + 1/2) ^ 2 < x
    · rw [if_pos hB1, if_pos (hB.mpr hB1)]
      push_cast
      ring
    · rw [if_neg hB1, if_neg (fun h => hB1 (hB.mp h))]
      by_cases hC1 : k % 2 = 0
      · rw [if_pos hC1, if_pos (hC.mpr hC1)]
      · rw [if_neg hC1, if_neg (fun h => hC1 (hC.mp h))]
        push_cast
        ring

theorem round2sqrt_spec {v : ℚ} (hv : 0 ≤ v) :
    ((round2sqrt v : ℚ) : ℝ) =
      ((rheR (100 * Real.sqrt ((v : ℚ) : ℝ)) : ℤ) : ℝ) / 100 := by
  have h1 : (0:ℚ) ≤ 10000 * v := by positivity
  have h2 := rheSqrt_eq_rheR h1
  have hsqrt : Real.sqrt (((10000 * v : ℚ)) : ℝ) = 100 * Real.sqrt ((v:ℚ) : ℝ) := by
    rw [show (((10000 * v : ℚ)) : ℝ) = (100:ℝ)^2 * ((v:ℚ):ℝ) by push_cast; ring]
    rw [Real.sqrt_mul (by positivity) _]
    rw [Real.sqrt_sq (by norm_num : (0:ℝ) ≤ 100)]
  rw [← hsqrt, round2sqrt]
  rw [show ((((rheSqrt (10000 * v) : ℕ) : ℚ) / 100 : ℚ) : ℝ) =
    ((rheSqrt (10000 * v) : ℕ) : ℝ) / 100 by push_cast; ring]
  rw [show ((rheSqrt (10000 * v) : ℕ) : ℝ) =
    ((rheR (Real.sqrt ((10000 * v : ℚ) : ℝ)) : ℤ) : ℝ) by exact_mod_cast h2]

theorem filter_eq_map_toQ {xs : List Val}
    (hnum : ∀ v ∈ xs, v = Val.vmissing ∨ ∃ q : ℚ, v = Val.vnum q) :
    xs.filter (fun v => v ≠ Val.vmissing) = (xs.filterMap toQ).map Val.vnum := by
  induction xs with
  | nil => rfl
  | cons x rest ih =>
    have hx := hnum x (List.mem_cons_self _ _)
    have hrest : ∀ v ∈ rest, v = Val.vmissing ∨ ∃ q : ℚ, v = Val.vnum q :=
      fun v hv => hnum v (List.mem_cons_of_mem _ hv)
    rcases hx with rfl | ⟨q, rfl⟩
    · simpa [List.filter_cons, List.filterMap_cons, toQ] using ih hrest
    · simpa [List.filter_cons, List.filterMap_cons, toQ] using ih hrest

theorem vminV_vnum (a b : ℚ) : vminV (Val.vnum a) (Val.vnum b) = Val.vnum (min a b) := by
  rw [vminV, min_def]
  by_cases h : a ≤ b <;> simp [valLeB, h]

theorem vmaxV_vnum (a b : ℚ) : vmaxV (Val.vnum a) (Val.vnum b) = Val.vnum (max a b) := by
  rw [vmaxV, max_def]
  by_cases h : a ≤ b <;> simp [valLeB, h]

theorem foldl_vminV_map (a : ℚ) (l : List ℚ) :
    List.foldl vminV (Val.vnum a) (l.map Val.vnum) = Val.vnum (List.foldl min a l) := by
  induction l generalizing a with
  | nil => rfl
  | cons b l ih => simp only [List.map_cons, List.foldl_cons, vminV_vnum, ih]

theorem foldl_vmaxV_map (a : ℚ) (l : List ℚ) :
    List.foldl vmaxV (Val.vnum a) (l.map Val.vnum) = Val.vnum (List.foldl max a l) := by
  induction l generalizing a with
  | nil => rfl
  | cons b l ih => simp only [List.map_cons, List.foldl_cons, vmaxV_vnum, ih]

theorem foldl_min_le_init (a : ℚ) (l : List ℚ) : List.foldl min a l ≤ a := by
  induction l generalizing a with
  | nil => exact le_refl a
  | cons b l ih => exact le_trans (ih (min a b)) (min_le_left a b)

theorem foldl_min_le_mem {b : ℚ} {l : List ℚ} (hb : b ∈ l) (a : ℚ) :
    List.foldl min a l ≤ b := by
  induction l generalizing a with
  | nil => exact absurd hb (List.not_mem_nil b)
  | cons c l ih =>
    rcases List.mem_cons.mp hb with rfl | hb2
    · exact le_trans (foldl_min_le_init (min a b) l) (min_le_right a b)
    · exact ih hb2 (min a c)

theorem foldl_min_mem (a : ℚ) (l : List ℚ) :
    List.foldl min a l = a ∨ List.foldl min a l ∈ l := by
  induction l generalizing a with
  | nil => exact Or.inl rfl
  | cons b l ih =>
    rcases ih (min a b) with h | h
    · rcases min_choice a b with hm | hm
      · exact Or.inl (by rw [List.foldl_cons, h, hm])
      · exact Or.inr (by rw [List.foldl_cons, h, hm]; exact List.mem_cons_self _ _)
    · exact Or.inr (List.mem_cons_of_mem _ (by rw [List.foldl_cons]; exact h))

theorem foldl_max_ge_init (a : ℚ) (l : List ℚ) : a ≤ List.foldl max a l := by
  induction l generalizing a with
  | nil => exact le_refl a
  | cons b l ih => exact le_trans (le_max_left a b) (ih (max a b))

theorem foldl_max_ge_mem {b : ℚ} {l : List ℚ} (hb : b ∈ l) (a : ℚ) :
    b ≤ List.foldl max a l := by
  induction l generalizing a with
  | nil => exact absurd hb (List.not_mem_nil b)
  | cons c l ih =>
    rcases List.mem_cons.mp hb with rfl | hb2
    · exact le_trans (le_max_right a b) (foldl_max_ge_init (max a b) l)
    · exact ih hb2 (max a c)

theorem foldl_max_mem (a : ℚ) (l : List ℚ) :
    List.foldl max a l = a ∨ List.foldl max a l ∈ l := by
  induction l generalizing a with
  | nil => exact Or.inl rfl
  | cons b l ih =>
    rcases ih (max a b) with h | h
    · rcases max_choice a b with hm | hm
      · exact Or.inl (by rw [List.foldl_cons, h, hm])
      · exact Or.inr (by rw [List.foldl_cons, h, hm]; exact List.mem_cons_self _ _)
    · exact Or.inr (List.mem_cons_of_mem _ (by rw [List.foldl_cons]; exact h))

theorem sampleVar_nonneg {qs : List ℚ} (h : 2 ≤ qs.length) : 0 ≤ sampleVar qs := by
  simp only [sampleVar]
  apply div_nonneg
  · apply List.sum_nonneg
    intro x hx
    rcases List.mem_map.mp hx with ⟨y, _, rfl⟩
    positivity
  · have h2 : (2:ℚ) ≤ (qs.length : ℚ) := by exact_mod_cast h
    linarith

/-- C9: for every numeric column (missing markers and finite numeric
values) with at least one non-missing value, `min` and `max` are the raw
unrounded extrema of the non-missing values, `mean` and the three
percentiles are rounded to two decimals, and `std` is the sample
standard deviation rounded to two decimals — left unset exactly when
fewer than two non-missing values exist. -/
theorem c9_numeric_stats (xs : List Val)
    (hnum : ∀ v ∈ xs, v = Val.vmissing ∨ ∃ q : ℚ, v = Val.vnum q)
    (hc : 0 < (xs.filter (fun v => v ≠ Val.vmissing)).length) :
    (∃ m : ℚ, (get_features_stats xs "num").min = some (Val.vnum m) ∧
      m ∈ xs.filterMap toQ ∧ ∀ q ∈ xs.filterMap toQ, m ≤ q) ∧
    (∃ M : ℚ, (get_features_stats xs "num").max = some (Val.vnum M) ∧
      M ∈ xs.filterMap toQ ∧ ∀ q ∈ xs.filterMap toQ, q ≤ M) ∧
    (get_features_stats xs "num").count = (xs.filterMap toQ).length ∧
    (get_features_stats xs "num").mean =
      some (round2 ((xs.filterMap toQ).sum / ((xs.filterMap toQ).length : ℚ))) ∧
    (get_features_stats xs "num").percentile_25 =
      some (round2 (quantileQ (sortQ (xs.filterMap toQ)) (1/4))) ∧
    (get_features_stats xs "num").percentile_50 =
      some (round2 (quantileQ (sortQ (xs.filterMap toQ)) (1/2))) ∧
    (get_features_stats xs "num").percentile_75 =
      some (round2 (quantileQ (sortQ (xs.filterMap toQ)) (3/4))) ∧
    ((get_features_stats xs "num").std = none ↔ (xs.filterMap toQ).length < 2) ∧
    (∀ s : ℚ, (get_features_stats xs "num").std = some s →
      (s : ℝ) = ((rheR (100 * Real.sqrt ((sampleVar (xs.filterMap toQ) : ℚ) : ℝ)) : ℤ) : ℝ)
        / 100) := by
  have h : xs.length ≠ 0 := length_pos_of_filter_pos hc
  have hnn : xs ≠ [] := xs_ne_nil_of_filter_pos hc
  obtain ⟨e0, rest, ht⟩ : ∃ e0 rest, freqTable xs = e0 :: rest := by
    cases hft : freqTable xs with
    | nil => exact absurd hft (freqTable_ne_nil hnn)
    | cons a l => exact ⟨a, l, rfl⟩
  have hfe := filter_eq_map_toQ hnum
  have hlen : (xs.filter (fun v => v ≠ Val.vmissing)).length = (xs.filterMap toQ).length := by
    rw [hfe, List.length_map]
  have hfields := gfs_num_fields h hc ht
  obtain ⟨q0, qrest, hq⟩ : ∃ q0 qrest, xs.filterMap toQ = q0 :: qrest := by
    have hpos : 0 < (xs.filterMap toQ).length := by rw [← hlen]; exact hc
    cases hq0 : xs.filterMap toQ with
    | nil => rw [hq0] at hpos; simp at hpos
    | cons a l => exact ⟨a, l, rfl⟩
  refine ⟨?_, ?_, ?_, ?_, ?_, ?_, ?_, ?_, ?_⟩
  · refine ⟨List.foldl min q0 qrest, ?_, ?_, ?_⟩
    · rw [hfields.2.1, hfe, hq, List.map_cons, listExtreme, foldl_vminV_map]
    · rw [hq]
      rcases foldl_min_mem q0 qrest with hm | hm
      · rw [hm]; exact List.mem_cons_self _ _
      · exact List.mem_cons_of_mem _ hm
    · intro q hqq
      rw [hq] at hqq
      rcases List.mem_cons.mp hqq with rfl | hqq
      · exact foldl_min_le_init _ qrest
      · exact foldl_min_le_mem hqq q0
  · refine ⟨List.foldl max q0 qrest, ?_, ?_, ?_⟩
    · rw [hfields.1, hfe, hq, List.map_cons, listExtreme, foldl_vmaxV_map]
    · rw [hq]
      rcases foldl_max_mem q0 qrest with hm | hm
      · rw [hm]; exact List.mem_cons_self _ _
      · exact List.mem_cons_of_mem _ hm
    · intro q hqq
      rw [hq] at hqq
      rcases List.mem_cons.mp hqq with rfl | hqq
      · exact foldl_max_ge_init _ qrest
      · exact foldl_max_ge_mem hqq q0
  · rw [gfs_count "num" h, hlen]
  · rw [hfields.2.2.2.1, hlen]
  · exact hfields.2.2.2.2.1
  · exact hfields.2.2.2.2.2.1
  · exact hfields.2.2.2.2.2.2
  · rw [hfields.2.2.1, hlen]
    by_cases hlt : (xs.filterMap toQ).length < 2
    · simp [hlt]
    · simp [hlt]
  · intro s hs
    rw [hfields.2.2.1, hlen] at hs
    by_cases hlt : (xs.filterMap toQ).length < 2
    · rw [if_pos hlt] at hs
      exact absurd hs (by simp)
    · rw [if_neg hlt] at hs
      have hs' : s = round2sqrt (sampleVar (xs.filterMap toQ)) := (Option.some.inj hs).symm
      subst hs'
      exact round2sqrt_spec (sampleVar_nonneg (by omega))

theorem c9_witness :
    (∀ v ∈ ([Val.vnum 5] : List Val), v = Val.vmissing ∨ ∃ q : ℚ, v = Val.vnum q) ∧
    0 < (([Val.vnum 5] : List Val).filter (fun v => v ≠ Val.vmissing)).length ∧
    (get_features_stats [Val.vnum 5] "num").count = 1 ∧
    (get_features_stats [Val.vnum 5] "num").mean = some 5 ∧
    (get_features_stats [Val.vnum 5] "num").std = none ∧
    (∃ m : ℚ, (get_features_stats [Val.vnum 5] "num").min = some (Val.vnum m) ∧
      m ∈ ([Val.vnum 5] : List Val).filterMap toQ ∧
      ∀ q ∈ ([Val.vnum 5] : List Val).filterMap toQ, m ≤ q) := by
  have hnum : ∀ v ∈ ([Val.vnum 5] : List Val),
      v = Val.vmissing ∨ ∃ q : ℚ, v = Val.vnum q := by
    intro v hv
    rcases List.mem_singleton.mp hv with rfl
    exact Or.inr ⟨5, rfl⟩
  have hc : 0 < (([Val.vnum 5] : List Val).filter (fun v => v ≠ Val.vmissing)).length := by
    decide
  have hmain := c9_numeric_stats [Val.vnum 5] hnum hc
  have hfm : ([Val.vnum 5] : List Val).filterMap toQ = [5] := by
    simp [List.filterMap_cons, toQ]
  refine ⟨hnum, hc, ?_, ?_, ?_, hmain.1⟩
  · rw [hmain.2.2.1, hfm]
    rfl
  · rw [hmain.2.2.2.1, hfm]
    norm_num [round2, roundHalfEven]
  · rw [hmain.2.2.2.2.2.2.2.1, hfm]
    norm_num

theorem dfGet_ok {df : DataFrame} {k : String} {c : List Val}
    (h : dfGet df k = Except.ok c) : dfLookup df k = some c := by
  rw [dfGet] at h
  cases hl : dfLookup df k with
  | none => rw [hl] at h; exact absurd h (by simp)
  | some c2 => rw [hl] at h; exact congrArg some (Except.ok.inj h)

theorem mapME_forall2 {α β : Type} {f : α → Except String β} :
    ∀ {l : List α} {l' : List β}, mapME f l = Except.ok l' →
      List.Forall₂ (fun a b => f a = Except.ok b) l l' := by
  intro l
  induction l with
  | nil =>
    intro l' h
    rw [mapME] at h
    rw [← Except.ok.inj h]
    exact List.Forall₂.nil
  | cons x xs ih =>
    intro l' h
    rw [mapME] at h
    cases hx : f x with
    | error e => rw [hx] at h; exact absurd h (by simp)
    | ok y =>
      rw [hx] at h
      cases hrest : mapME f xs with
      | error e => rw [hrest] at h; exact absurd h (by simp)
      | ok ys =>
        rw [hrest] at h
        rw [← Except.ok.inj h]
        exact List.Forall₂.cons hx (ih hrest)

theorem annotateCat_ok {refD curD : DataFrame} {p q : String × FeaturesProfileStats}
    (h : annotateCat refD curD p = Except.ok q) :
    ∃ curCol : List Val, dfLookup curD p.1 = some curCol ∧
      q = (p.1, { p.2 with
        new_in_current_values_count :=
          some (specNewInCurrent (dfLookup refD p.1) curCol)
        unused_in_current_values_count :=
          some (specUnusedInCurrent (dfLookup refD p.1) curCol) }) := by
  rw [annotateCat] at h
  split at h
  next => exact absurd h (by simp)
  next curCol heq =>
    have hcur := dfGet_ok heq
    refine ⟨curCol, hcur, ?_⟩
    split at h
    next hmc =>
      split at h
      next => exact absurd h (by simp)
      next refCol hreq =>
        have href := dfGet_ok hreq
        split at h
        next hmr =>
          have hq := (Except.ok.inj h).symm
          subst hq
          simp only [specNewInCurrent, specUnusedInCurrent, colHasMissing, href,
            decide_eq_true_eq]
          rw [if_pos ⟨hmc, hmr⟩, if_pos ⟨hmc, hmr⟩]
        next hmr =>
          have hq := (Except.ok.inj h).symm
          subst hq
          simp only [specNewInCurrent, specUnusedInCurrent, colHasMissing, href,
            decide_eq_true_eq]
          rw [if_neg (fun hcon => hmr hcon.2), if_neg (fun hcon => hmr hcon.2)]
    next hmc =>
      have hq := (Except.ok.inj h).symm
      subst hq
      simp only [specNewInCurrent, specUnusedInCurrent, colHasMissing,
        decide_eq_true_eq]
      rw [if_neg (fun hcon => hmc hcon.1), if_neg (fun hcon => hmc hcon.1)]

theorem lookupA_forall2_annotate {refD curD : DataFrame} :
    ∀ {l l' : FeatMap},
      List.Forall₂ (fun a b => annotateCat refD curD a = Except.ok b) l l' →
      ∀ {nm : String} {rec : FeaturesProfileStats}, lookupA l' nm = some rec →
      ∃ orig : FeaturesProfileStats, lookupA l nm = some orig ∧
        annotateCat refD curD (nm, orig) = Except.ok (nm, rec) := by
  intro l l' hf
  induction hf with
  | nil => intro nm rec h; exact absurd h (by simp [lookupA])
  | @cons a b l₁ l₂ hab hrest ih =>
    intro nm rec h
    obtain ⟨curCol, _, hbeq⟩ := annotateCat_ok hab
    have hb1 : b.1 = a.1 := by rw [hbeq]
    rw [lookupA] at h
    by_cases hnm : nm = b.1
    · rw [if_pos hnm] at h
      have hrec : rec = b.2 := (Option.some.inj h).symm
      refine ⟨a.2, ?_, ?_⟩
      · rw [lookupA, if_pos (hnm.trans hb1)]
      · have hpair : (nm, a.2) = a := by
          rw [hnm.trans hb1]
        rw [hpair, hab, hbeq, hrec, hbeq]
        rw [← hnm.trans hb1]
    · rw [if_neg hnm] at h
      obtain ⟨orig, ho1, ho2⟩ := ih h
      refine ⟨orig, ?_, ho2⟩
      rw [lookupA, if_neg (fun hcon => hnm (hcon.trans hb1.symm))]
      exact ho1

theorem specNewInCurrent_nonneg (o : Option (List Val)) (cur : List Val) :
    0 ≤ specNewInCurrent o cur := by
  simp only [specNewInCurrent]
  split
  next hcond =>
    have hmem : Val.vmissing ∈ pySetDiff cur.toFinset (refValuesSet o) := by
      rw [pySetDiff, Finset.mem_sdiff]
      exact ⟨List.mem_toFinset.mpr hcond.1,
        fun hcon => (Finset.mem_erase.mp hcon).1 rfl⟩
    have hpos : 0 < (pySetDiff cur.toFinset (refValuesSet o)).card :=
      Finset.card_pos.mpr ⟨_, hmem⟩
    omega
  next => exact Int.natCast_nonneg _

theorem specUnusedInCurrent_nonneg (o : Option (List Val)) (cur : List Val) :
    0 ≤ specUnusedInCurrent o cur := by
  simp only [specUnusedInCurrent]
  split
  next hcond =>
    obtain ⟨rc, hrc, hmrc⟩ : ∃ rc, o = some rc ∧ Val.vmissing ∈ rc := by
      cases ho : o with
      | none => rw [ho] at hcond; rw [colHasMissing] at hcond; exact absurd hcond.2 (by simp)
      | some rc =>
        rw [ho] at hcond
        rw [colHasMissing] at hcond
        exact ⟨rc, rfl, of_decide_eq_true hcond.2⟩
    have hmem : Val.vmissing ∈ pySetDiff (refValuesSet o) cur.toFinset := by
      rw [pySetDiff, Finset.mem_sdiff, hrc, refValuesSet]
      exact ⟨List.mem_toFinset.mpr hmrc,
        fun hcon => (Finset.mem_erase.mp hcon).1 rfl⟩
    have hpos : 0 < (pySetDiff (refValuesSet o) cur.toFinset).card :=
      Finset.card_pos.mpr ⟨_, hmem⟩
    omega
  next => exact Int.natCast_nonneg _

theorem pySetDiff_self_card (S : Finset Val) :
    (pySetDiff S S).card = if Val.vmissing ∈ S then 1 else 0 := by
  rw [pySetDiff]
  by_cases hm : Val.vmissing ∈ S
  · rw [if_pos hm]
    have hset : S \ S.erase Val.vmissing = {Val.vmissing} := by
      ext x
      rw [Finset.mem_sdiff, Finset.mem_erase, Finset.mem_singleton]
      constructor
      · rintro ⟨hx, hnot⟩
        by_contra hne
        exact hnot ⟨hne, hx⟩
      · rintro rfl
        exact ⟨hm, fun hcon => hcon.1 rfl⟩
    rw [hset, Finset.card_singleton]
  · rw [if_neg hm, Finset.erase_eq_of_not_mem hm, Finset.sdiff_self, Finset.card_empty]

theorem spec_drift_zero_of_eq {o : Option (List Val)} {cur : List Val}
    (hid : refValuesSet o = cur.toFinset) :
    specNewInCurrent o cur = 0 ∧ specUnusedInCurrent o cur = 0 := by
  simp only [specNewInCurrent, specUnusedInCurrent, hid]
  by_cases hm : Val.vmissing ∈ cur.toFinset
  · have hcond : Val.vmissing ∈ cur ∧ colHasMissing o = true := by
      refine ⟨List.mem_toFinset.mp hm, ?_⟩
      cases ho : o with
      | none =>
        rw [ho, refValuesSet] at hid
        rw [← hid] at hm
        exact absurd hm (Finset.not_mem_empty _)
      | some rc =>
        rw [ho, refValuesSet] at hid
        rw [colHasMissing]
        exact decide_eq_true (List.mem_toFinset.mp (hid ▸ hm))
    rw [if_pos hcond, pySetDiff_self_card, if_pos hm]
    exact ⟨rfl, rfl⟩
  · have hcond : ¬ (Val.vmissing ∈ cur ∧ colHasMissing o = true) := by
      intro hcon
      exact hm (List.mem_toFinset.mpr hcon.1)
    rw [if_neg hcond, pySetDiff_self_card, if_neg hm]
    exact ⟨rfl, rfl⟩

theorem calculate_cat_entry {refD curD : DataFrame} {cols : DatasetColumns}
    {task : Option String} {res : DataProfileAnalyzerResults}
    (hok : calculate refD (some curD) cols task = Except.ok res)
    {catList : FeatMap}
    (hcat : res.reference_features_stats.cat_features_stats = some catList)
    {nm : String} {rec : FeaturesProfileStats}
    (hnm : lookupA catList nm = some rec) :
    ∃ (refStats : DataProfileStats) (origList : FeatMap)
      (orig : FeaturesProfileStats) (curCol : List Val),
      calculate_stats refD cols task = Except.ok refStats ∧
      refStats.cat_features_stats = some origList ∧
      lookupA origList nm = some orig ∧
      dfLookup curD nm = some curCol ∧
      rec = { orig with
        new_in_current_values_count :=
          some (specNewInCurrent (dfLookup refD nm) curCol)
        unused_in_current_values_count :=
          some (specUnusedInCurrent (dfLookup refD nm) curCol) } := by
  rw [calculate] at hok
  split at hok
  next => exact absurd hok (by simp)
  next refStats h1 =>
    split at hok
    next heqn => exact absurd heqn (by simp)
    next curD2 heqs =>
      have hcd : curD2 = curD := (Option.some.inj heqs).symm
      subst hcd
      split at hok
      next => exact absurd hok (by simp)
      next curStats h2 =>
        split at hok
        next hnone =>
          have hres := (Except.ok.inj hok).symm
          subst hres
          rw [hnone] at hcat
          exact absurd hcat (by simp)
        next origList hsome =>
          split at hok
          next => exact absurd hok (by simp)
          next newCat h4 =>
            have hres := (Except.ok.inj hok).symm
            subst hres
            have hcl : newCat = catList := Option.some.inj hcat
            subst hcl
            obtain ⟨orig, ho1, hann⟩ := lookupA_forall2_annotate (mapME_forall2 h4) hnm
            obtain ⟨curCol, hcur, heq⟩ := annotateCat_ok hann
            exact ⟨refStats, origList, orig, curCol, h1, hsome, ho1, hcur,
              congrArg Prod.snd heq⟩

/-- C1: when a current dataset is supplied, every record of the
reference profile's categorical bucket carries `new_in_current` — the
size of the set difference of distinct current values minus distinct
reference values, the missing marker participating as a distinct
element, the reference set empty when the feature is absent from the
reference dataset — and `unused_in_current`, the size of the reverse
difference; both are decremented by exactly one when both columns
contain at least one missing value, and the corrected counts are
written onto the existing reference categorical record. -/
theorem c1_drift_counts {refD curD : DataFrame} {cols : DatasetColumns}
    {task : Option String} {res : DataProfileAnalyzerResults}
    (hok : calculate refD (some curD) cols task = Except.ok res)
    {catList : FeatMap}
    (hcat : res.reference_features_stats.cat_features_stats = some catList)
    {nm : String} {rec : FeaturesProfileStats}
    (hnm : lookupA catList nm = some rec) :
    ∃ (refStats : DataProfileStats) (origList : FeatMap)
      (orig : FeaturesProfileStats) (curCol : List Val),
      calculate_stats refD cols task = Except.ok refStats ∧
      refStats.cat_features_stats = some origList ∧
      lookupA origList nm = some orig ∧
      dfLookup curD nm = some curCol ∧
      rec = { orig with
        new_in_current_values_count :=
          some (specNewInCurrent (dfLookup refD nm) curCol)
        unused_in_current_values_count :=
          some (specUnusedInCurrent (dfLookup refD nm) curCol) } :=
  calculate_cat_entry hok hcat hnm

/-- C2: the two drift counts written onto a reference categorical record
are never negative, and both are zero whenever the reference and current
distinct-value sets (before the missing-value correction) are identical. -/
theorem c2_drift_counts_nonneg {refD curD : DataFrame} {cols : DatasetColumns}
    {task : Option String} {res : DataProfileAnalyzerResults}
    (hok : calculate refD (some curD) cols task = Except.ok res)
    {catList : FeatMap}
    (hcat : res.reference_features_stats.cat_features_stats = some catList)
    {nm : String} {rec : FeaturesProfileStats}
    (hnm : lookupA catList nm = some rec) :
    (∀ n : ℤ, rec.new_in_current_values_count = some n → 0 ≤ n) ∧
    (∀ u : ℤ, rec.unused_in_current_values_count = some u → 0 ≤ u) ∧
    (∀ curCol : List Val, dfLookup curD nm = some curCol →
      refValuesSet (dfLookup refD nm) = curCol.toFinset →
      rec.new_in_current_values_count = some 0 ∧
      rec.unused_in_current_values_count = some 0) := by
  obtain ⟨refStats, origList, orig, curCol0, _, _, _, hcur0, hrec⟩ :=
    calculate_cat_entry hok hcat hnm
  refine ⟨?_, ?_, ?_⟩
  · intro n hn
    rw [hrec] at hn
    simp only at hn
    rw [← Option.some.inj hn]
    exact specNewInCurrent_nonneg _ _
  · intro u hu
    rw [hrec] at hu
    simp only at hu
    rw [← Option.some.inj hu]
    exact specUnusedInCurrent_nonneg _ _
  · intro curCol hcur hid
    have hcc : curCol = curCol0 := by
      rw [hcur0] at hcur
      exact (Option.some.inj hcur).symm
    subst hcc
    obtain ⟨hz1, hz2⟩ := spec_drift_zero_of_eq hid
    rw [hrec]
    simp [hz1, hz2]

theorem c1_witness :
    ∃ (res : DataProfileAnalyzerResults) (catList : FeatMap)
      (rec : FeaturesProfileStats),
      calculate exampleRefData (some exampleCurData) exampleColumns none =
        Except.ok res ∧
      res.reference_features_stats.cat_features_stats = some catList ∧
      lookupA catList "f" = some rec ∧
      rec.new_in_current_values_count = some 1 ∧
      rec.unused_in_current_values_count = some 1 ∧
      (∃ (refStats : DataProfileStats) (origList : FeatMap)
        (orig : FeaturesProfileStats) (curCol : List Val),
        calculate_stats exampleRefData exampleColumns none = Except.ok refStats ∧
        refStats.cat_features_stats = some origList ∧
        lookupA origList "f" = some orig ∧
        dfLookup exampleCurData "f" = some curCol ∧
        rec = { orig with
          new_in_current_values_count :=
            some (specNewInCurrent (dfLookup exampleRefData "f") curCol)
          unused_in_current_values_count :=
            some (specUnusedInCurrent (dfLookup exampleRefData "f") curCol) }) := by
  have hev : (match calculate exampleRefData (some exampleCurData) exampleColumns none with
      | Except.ok r =>
        match r.reference_features_stats.cat_features_stats with
        | some l =>
          match lookupA l "f" with
          | some rc =>
            some (rc.new_in_current_values_count, rc.unused_in_current_values_count)
          | none => none
        | none => none
      | Except.error _ => none) = some (some 1, some 1) := by rfl
  split at hev
  next r heqcalc =>
    split at hev
    next l heqcat =>
      split at hev
      next rc heqlook =>
        have hpair := Option.some.inj hev
        refine ⟨r, l, rc, heqcalc, heqcat, heqlook,
          congrArg Prod.fst hpair, congrArg Prod.snd hpair, ?_⟩
        exact c1_drift_counts heqcalc heqcat heqlook
      next => exact absurd hev (by simp)
    next => exact absurd hev (by simp)
  next => exact absurd hev (by simp)

theorem c2_witness :
    ∃ (res : DataProfileAnalyzerResults) (catList : FeatMap)
      (rec : FeaturesProfileStats),
      calculate exampleRefData2 (some exampleCurData2) exampleColumns2 none =
        Except.ok res ∧
      res.reference_features_stats.cat_features_stats = some catList ∧
      lookupA catList "g" = some rec ∧
      refValuesSet (dfLookup exampleRefData2 "g") =
        ([Val.vmissing, Val.vstr "a", Val.vstr "a"] : List Val).toFinset ∧
      rec.new_in_current_values_count = some 0 ∧
      rec.unused_in_current_values_count = some 0 := by
  have hev : (match calculate exampleRefData2 (some exampleCurData2) exampleColumns2 none with
      | Except.ok r =>
        match r.reference_features_stats.cat_features_stats with
        | some l =>
          match lookupA l "g" with
          | some rc => some rc
          | none => none
        | none => none
      | Except.error _ => none).isSome = true := by rfl
  split at hev
  next r heqcalc =>
    split at hev
    next l heqcat =>
      split at hev
      next rc heqlook =>
        have hid : refValuesSet (dfLookup exampleRefData2 "g") =
            ([Val.vmissing, Val.vstr "a", Val.vstr "a"] : List Val).toFinset := by decide
        have hcur : dfLookup exampleCurData2 "g" =
            some [Val.vmissing, Val.vstr "a", Val.vstr "a"] := by rfl
        have hz := (c2_drift_counts_nonneg heqcalc heqcat heqlook).2.2
          [Val.vmissing, Val.vstr "a", Val.vstr "a"] hcur hid
        exact ⟨r, l, rc, heqcalc, heqcat, heqlook, hid, hz.1, hz.2⟩
      next => exact absurd hev (by simp)
    next => exact absurd hev (by simp)
  next => exact absurd hev (by simp)
